import Mathlib

/-!
Shallow embedding of the Duke-Energy-Data-Collector pipeline
(`collector/src/duke.ts` and the entry script) and proofs about it.

Conventions of the embedding:
* JavaScript numbers are modelled as `Rat`; `x.toFixed(3)` followed by
  `parseFloat` is modelled by `round3` (round half up to 3 decimals).
* Strings stay `String`; `undefined`-able values are `Option`s and the
  JavaScript truthiness of `s || d` on strings / numbers is modelled by
  `jsStrOr` / `jsRatOr` (empty string and `0` are falsy).
* `new Date(s)` is never evaluated: an abstract `DateEnv` interprets a
  stored date string as an epoch time (`time`), a calendar year (`year`)
  and a 0-based month (`month`), exactly the three projections the code
  uses.
* `Array.prototype.sort` with comparator `(a, b) => k a - k b` is a stable
  ascending sort by the key `k`; it is modelled by the stable insertion
  sort `sortByKey` below.
-/

namespace Duke

/-- Stable insertion of `a` into `l` by sort key: `a` goes in front of the
first element whose key is `≥ key a`.  Part of the model of the stable
JavaScript `Array.prototype.sort`. -/
def insertByKey {α β : Type} [LinearOrder β] (key : α → β) (a : α) : List α → List α
  | [] => [a]
  | b :: l => if key a ≤ key b then a :: b :: l else b :: insertByKey key a l

/-- Stable ascending sort by `key`; extensionally equal to JavaScript
`Array.prototype.sort` with comparator `(a, b) => key a - key b`. -/
def sortByKey {α β : Type} [LinearOrder β] (key : α → β) : List α → List α
  | [] => []
  | a :: l => insertByKey key a (sortByKey key l)

variable {α β : Type} [LinearOrder β] {key : α → β}

theorem insertByKey_perm (a : α) (l : List α) :
    (insertByKey key a l).Perm (a :: l) := by
  induction l with
  | nil => simp [insertByKey]
  | cons b t ih =>
      by_cases h : key a ≤ key b
      · simp [insertByKey, h]
      · simp only [insertByKey, if_neg h]
        exact ((ih.cons b).trans (List.Perm.swap a b t))

theorem sortByKey_perm (l : List α) : (sortByKey key l).Perm l := by
  induction l with
  | nil => simp [sortByKey]
  | cons a t ih =>
      exact (insertByKey_perm a (sortByKey key t)).trans (ih.cons a)

theorem mem_sortByKey {x : α} {l : List α} : x ∈ sortByKey key l ↔ x ∈ l :=
  (sortByKey_perm l).mem_iff

theorem insertByKey_sorted {a : α} {l : List α}
    (hl : l.Pairwise (fun x y => key x ≤ key y)) :
    (insertByKey key a l).Pairwise (fun x y => key x ≤ key y) := by
  induction l with
  | nil => simp [insertByKey]
  | cons b t ih =>
      by_cases h : key a ≤ key b
      · rw [insertByKey, if_pos h]
        refine List.Pairwise.cons ?_ hl
        intro y hy
        rcases List.mem_cons.mp hy with hy' | hy'
        · subst hy'; exact h
        · exact le_trans h ((List.pairwise_cons.mp hl).1 y hy')
      · rw [insertByKey, if_neg h]
        have hb := List.pairwise_cons.mp hl
        refine List.Pairwise.cons ?_ (ih hb.2)
        intro y hy
        rcases List.mem_cons.mp ((insertByKey_perm a t).mem_iff.mp hy) with hy' | hy'
        · subst hy'; exact le_of_not_le h
        · exact hb.1 y hy'

theorem sortByKey_sorted (l : List α) :
    (sortByKey key l).Pairwise (fun x y => key x ≤ key y) := by
  induction l with
  | nil => simp [sortByKey]
  | cons a t ih => exact insertByKey_sorted ih

theorem insertByKey_of_head {a : α} {l : List α}
    (h : ∀ c ∈ l, key a ≤ key c) : insertByKey key a l = a :: l := by
  cases l with
  | nil => rfl
  | cons b t => rw [insertByKey, if_pos (h b (by simp))]

theorem sortByKey_eq_self {l : List α}
    (h : l.Pairwise (fun x y => key x ≤ key y)) : sortByKey key l = l := by
  induction l with
  | nil => rfl
  | cons a t ih =>
      have hp := List.pairwise_cons.mp h
      rw [sortByKey, ih hp.2, insertByKey_of_head hp.1]

theorem filter_insertByKey (p : α → Bool) {a : α} {l : List α}
    (hl : l.Pairwise (fun x y => key x ≤ key y)) :
    (insertByKey key a l).filter p =
      if p a then insertByKey key a (l.filter p) else l.filter p := by
  induction l with
  | nil => cases h : p a <;> simp [insertByKey, List.filter_cons, h]
  | cons b t ih =>
      have hp := List.pairwise_cons.mp hl
      by_cases h : key a ≤ key b
      · rw [insertByKey, if_pos h]
        cases hpa : p a with
        | false => simp [List.filter_cons, hpa]
        | true =>
            have hhead : ∀ c ∈ (b :: t).filter p, key a ≤ key c := by
              intro c hc
              rcases List.mem_cons.mp (List.mem_filter.mp hc).1 with hc' | hc'
              · subst hc'; exact h
              · exact le_trans h (hp.1 c hc')
            simp only [List.filter_cons, hpa, if_pos rfl]
            rw [insertByKey_of_head (by simpa [List.filter_cons] using hhead)]
      · rw [insertByKey, if_neg h]
        rw [List.filter_cons, List.filter_cons, ih hp.2]
        cases hpa : p a with
        | false =>
            cases hpb : p b <;> simp
        | true =>
            cases hpb : p b with
            | true => simp [insertByKey, h]
            | false => simp

theorem filter_sortByKey (p : α → Bool) (l : List α) :
    (sortByKey key l).filter p = sortByKey key (l.filter p) := by
  induction l with
  | nil => rfl
  | cons a t ih =>
      rw [sortByKey, filter_insertByKey p (sortByKey_sorted t), ih]
      cases hpa : p a with
      | true => rw [if_pos (by simp), List.filter_cons, if_pos (by simp [hpa]), sortByKey]
      | false => rw [if_neg (by simp), List.filter_cons, if_neg (by simp [hpa])]

theorem map_insertByKey {α' : Type} (f : α → α') (key' : α' → β)
    (hk : ∀ x, key' (f x) = key x) (a : α) (l : List α) :
    (insertByKey key a l).map f = insertByKey key' (f a) (l.map f) := by
  induction l with
  | nil => rfl
  | cons b t ih =>
      by_cases h : key a ≤ key b
      · rw [insertByKey, if_pos h, List.map_cons, List.map_cons]
        rw [insertByKey, if_pos (by rw [hk, hk]; exact h)]
      · rw [insertByKey, if_neg h, List.map_cons, List.map_cons]
        rw [insertByKey, if_neg (by rw [hk, hk]; exact h), ih]

theorem map_sortByKey {α' : Type} (f : α → α') (key' : α' → β)
    (hk : ∀ x, key' (f x) = key x) (l : List α) :
    (sortByKey key l).map f = sortByKey key' (l.map f) := by
  induction l with
  | nil => rfl
  | cons a t ih =>
      rw [sortByKey, map_insertByKey f key' hk, ih, List.map_cons, sortByKey]

theorem find?_insertByKey_pos (q : α → Bool) {a : α}
    (hqa : q a = true) (hq : ∀ x, q x = true → key x = key a) (l : List α) :
    (insertByKey key a l).find? q = some a := by
  induction l with
  | nil => simp [insertByKey, List.find?, hqa]
  | cons b t ih =>
      by_cases h : key a ≤ key b
      · rw [insertByKey, if_pos h, List.find?, hqa]
      · rw [insertByKey, if_neg h, List.find?]
        cases hqb : q b with
        | true => exact absurd (hq b hqb) (by intro he; exact h (le_of_eq he.symm))
        | false => exact ih

theorem find?_insertByKey_neg (q : α → Bool) {a : α}
    (hqa : q a = false) (l : List α) :
    (insertByKey key a l).find? q = l.find? q := by
  induction l with
  | nil => simp [insertByKey, List.find?, hqa]
  | cons b t ih =>
      by_cases h : key a ≤ key b
      · rw [insertByKey, if_pos h, List.find?, hqa, List.find?]
      · rw [insertByKey, if_neg h, List.find?, List.find?]
        cases hqb : q b with
        | true => rfl
        | false => exact ih

theorem find?_sortByKey (q : α → Bool)
    (hq : ∀ x y, q x = true → q y = true → key x = key y) (l : List α) :
    (sortByKey key l).find? q = l.find? q := by
  induction l with
  | nil => rfl
  | cons a t ih =>
      rw [sortByKey]
      cases hqa : q a with
      | true =>
          rw [find?_insertByKey_pos q hqa (fun x hx => hq x a hx hqa), List.find?, hqa]
      | false =>
          rw [find?_insertByKey_neg q hqa, ih, List.find?, hqa]

theorem find?_filter_some {q p : α → Bool} {a : α}
    (hqp : ∀ x y, q x = true → q y = true → p x = p y) {l : List α}
    (h : (l.filter p).find? q = some a) : l.find? q = some a := by
  induction l with
  | nil => simp [List.filter] at h
  | cons b t ih =>
      cases hqb : q b with
      | true =>
          cases hpb : p b with
          | true =>
              rw [List.filter_cons_of_pos hpb, List.find?, hqb] at h
              rw [List.find?, hqb]; exact h
          | false =>
              rw [List.filter_cons_of_neg (by simp [hpb])] at h
              have ha := List.find?_some h
              have hmem := List.mem_of_find?_eq_some h
              have hpa := (List.mem_filter.mp hmem).2
              rw [hqp a b ha hqb, hpb] at hpa
              exact absurd hpa (by simp)
      | false =>
          rw [List.find?, hqb]
          cases hpb : p b with
          | true =>
              rw [List.filter_cons_of_pos hpb, List.find?, hqb] at h
              exact ih h
          | false =>
              rw [List.filter_cons_of_neg (by simp [hpb])] at h
              exact ih h

/-- Helper: head-unfolding of `List.findIdx?` with the default start index. -/
theorem findIdx?_cons_zero {γ : Type} (p : γ → Bool) (a : γ) (l : List γ) :
    (a :: l).findIdx? p = if p a then some 0 else (l.findIdx? p).map (· + 1) := by
  rw [List.findIdx?_cons]
  cases h : p a
  · simp [h, List.findIdx?_succ]
  · simp [h]

/-- Abstract shape of the upsert loop of `storeUsageData`: a batch element of
type `ρ` (a processed reading) with date key `keyR`, a stored record of type
`α` with date key `keyA`, and the record constructor `build` used by the loop. -/
structure UpsertModel (ρ α : Type) where
  keyR : ρ → String
  keyA : α → String
  build : ρ → α
  hkey : ∀ r, keyA (build r) = keyR r

namespace UpsertModel

variable {ρ α : Type} (M : UpsertModel ρ α)

/-- The last batch element with a given date key (the one whose record
survives after the whole batch is processed). -/
def lastFor : List ρ → String → Option ρ
  | [], _ => none
  | r :: R, d =>
      match lastFor R d with
      | some x => some x
      | none => if M.keyR r = d then some r else none

/-- One upsert-loop iteration, structural form: replace the first record whose
date equals the reading's date key, else append the freshly built record. -/
def upFirst (r : ρ) : List α → List α
  | [] => [M.build r]
  | a :: s => if M.keyA a = M.keyR r then M.build r :: s else a :: upFirst r s

/-- One upsert-loop iteration in the `findIndex`-then-assign form of the
source (`historical_data.findIndex(...)`; replace at the index, else push). -/
def upIdx (s : List α) (r : ρ) : List α :=
  match s.findIdx? (fun a => M.keyA a == M.keyR r) with
  | some i => s.set i (M.build r)
  | none => s ++ [M.build r]

/-- The whole upsert loop over a batch (`for (const reading of usage_data)`). -/
def mergeStore (s : List α) (R : List ρ) : List α :=
  R.foldl (fun s r => M.upFirst r s) s

theorem upIdx_eq_upFirst (r : ρ) : ∀ s : List α, M.upIdx s r = M.upFirst r s := by
  intro s
  induction s with
  | nil => simp [upIdx, upFirst, List.findIdx?_nil]
  | cons a s ih =>
      rw [upIdx, findIdx?_cons_zero]
      by_cases h : M.keyA a = M.keyR r
      · rw [if_pos (by simp [h])]
        simp [upFirst, h]
      · rw [if_neg (by simp [h])]
        rw [upFirst, if_neg h]
        rw [upIdx] at ih
        cases hfi : s.findIdx? (fun a => M.keyA a == M.keyR r) with
        | none =>
            rw [hfi] at ih
            simp only [Option.map_none']
            simpa using ih
        | some i =>
            rw [hfi] at ih
            simp only [Option.map_some']
            rw [List.set_cons_succ]
            simpa using ih

theorem lastFor_key {R : List ρ} {d : String} {r : ρ}
    (h : M.lastFor R d = some r) : M.keyR r = d := by
  induction R with
  | nil => simp [lastFor] at h
  | cons r' R ih =>
      simp only [lastFor] at h
      cases hR : M.lastFor R d with
      | some x =>
          rw [hR] at h
          have hx := Option.some_inj.mp h
          exact ih (hx ▸ hR)
      | none =>
          rw [hR] at h
          by_cases hk : M.keyR r' = d
          · rw [if_pos hk] at h
            rw [← Option.some_inj.mp h]; exact hk
          · rw [if_neg hk] at h; exact absurd h (by simp)

theorem lastFor_cons_ne {R : List ρ} {d : String} {r : ρ}
    (h : M.keyR r ≠ d) : M.lastFor (r :: R) d = M.lastFor R d := by
  simp only [lastFor]
  cases hR : M.lastFor R d with
  | some x => rfl
  | none => rw [if_neg h]

theorem lastFor_cons_eq {R : List ρ} {d : String} {r : ρ}
    (h : M.keyR r = d) :
    M.lastFor (r :: R) d = some ((M.lastFor R d).getD r) := by
  simp only [lastFor]
  cases hR : M.lastFor R d with
  | some x => rfl
  | none => rw [if_pos h]; rfl

theorem lastFor_isSome {R : List ρ} {d : String} :
    (M.lastFor R d).isSome = true ↔ ∃ r ∈ R, M.keyR r = d := by
  induction R with
  | nil => simp [lastFor]
  | cons r R ih =>
      simp only [lastFor]
      cases hR : M.lastFor R d with
      | some x =>
          simp only [Option.isSome_some, true_iff]
          obtain ⟨y, hy, hky⟩ := ih.mp (by rw [hR]; rfl)
          exact ⟨y, List.mem_cons_of_mem _ hy, hky⟩
      | none =>
          have hnone : ¬ ∃ y ∈ R, M.keyR y = d := by
            intro hx
            have hs := ih.mpr hx
            rw [hR] at hs
            simp at hs
          by_cases hk : M.keyR r = d
          · simp only [if_pos hk, Option.isSome_some, true_iff]
            exact ⟨r, List.mem_cons_self r R, hk⟩
          · simp only [if_neg hk, Option.isSome_none]
            constructor
            · intro h; simp at h
            · rintro ⟨x, hx, hkx⟩
              rcases List.mem_cons.mp hx with h | h
              · exact absurd (h ▸ hkx) hk
              · exact absurd ⟨x, h, hkx⟩ hnone

/-- The value a record position holds after the whole batch has been
processed: replaced by the record built from the last batch element with the
same date key, if any. -/
def stampOne (R : List ρ) (a : α) : α :=
  match M.lastFor R (M.keyA a) with
  | some r => M.build r
  | none => a

/-- Stamp every record that is the first occurrence of its date key
(`seen` holds the date keys of records already passed). -/
def stampAux (R : List ρ) : List α → List String → List α
  | [], _ => []
  | a :: s, seen =>
      (if M.keyA a ∈ seen then a else M.stampOne R a) ::
        stampAux R s (seen ++ [M.keyA a])

/-- The records appended at the end of the store by the upsert loop: one per
date key of the batch that is not already present (`ds`), in order of first
occurrence, holding the record of the last batch element with that key. -/
def newTail : List String → List ρ → List α
  | _, [] => []
  | ds, r :: R =>
      if M.keyR r ∈ ds then newTail ds R
      else M.stampOne R (M.build r) :: newTail (ds ++ [M.keyR r]) R

theorem keyA_stampOne (R : List ρ) (a : α) :
    M.keyA (M.stampOne R a) = M.keyA a := by
  rw [stampOne]
  cases h : M.lastFor R (M.keyA a) with
  | some r => exact (M.hkey r).trans (M.lastFor_key h)
  | none => rfl

theorem stampOne_nil (a : α) : M.stampOne [] a = a := rfl

theorem stampAux_nil_batch : ∀ (s : List α) (seen : List String),
    M.stampAux [] s seen = s := by
  intro s
  induction s with
  | nil => intro seen; rfl
  | cons a s ih =>
      intro seen
      rw [stampAux, ih]
      by_cases h : M.keyA a ∈ seen <;> simp [h, stampOne_nil]

theorem map_keyA_stampAux (R : List ρ) : ∀ (s : List α) (seen : List String),
    (M.stampAux R s seen).map M.keyA = s.map M.keyA := by
  intro s
  induction s with
  | nil => intro seen; rfl
  | cons a s ih =>
      intro seen
      rw [stampAux, List.map_cons, List.map_cons, ih]
      by_cases h : M.keyA a ∈ seen
      · rw [if_pos h]
      · rw [if_neg h, keyA_stampOne]

theorem stampAux_append (R : List ρ) : ∀ (s t : List α) (seen : List String),
    M.stampAux R (s ++ t) seen =
      M.stampAux R s seen ++ M.stampAux R t (seen ++ s.map M.keyA) := by
  intro s
  induction s with
  | nil => intro t seen; simp [stampAux]
  | cons a s ih =>
      intro t seen
      rw [List.cons_append, stampAux, stampAux, ih, List.cons_append]
      simp [List.append_assoc]

theorem upFirst_of_absent {r : ρ} {s : List α}
    (h : ∀ a ∈ s, M.keyA a ≠ M.keyR r) : M.upFirst r s = s ++ [M.build r] := by
  induction s with
  | nil => rfl
  | cons a s ih =>
      rw [upFirst, if_neg (h a (by simp)), ih (fun b hb => h b (by simp [hb]))]
      rfl

theorem map_keyA_upFirst_present {r : ρ} {s : List α}
    (h : ∃ a ∈ s, M.keyA a = M.keyR r) :
    (M.upFirst r s).map M.keyA = s.map M.keyA := by
  induction s with
  | nil => simp at h
  | cons a s ih =>
      by_cases ha : M.keyA a = M.keyR r
      · rw [upFirst, if_pos ha, List.map_cons, List.map_cons, M.hkey, ha]
      · rw [upFirst, if_neg ha, List.map_cons, List.map_cons]
        obtain ⟨b, hb, hkb⟩ := h
        rcases List.mem_cons.mp hb with hb' | hb'
        · exact absurd (hb' ▸ hkb) ha
        · rw [ih ⟨b, hb', hkb⟩]

theorem mem_upFirst {x : α} {r : ρ} {s : List α}
    (h : x ∈ M.upFirst r s) : x ∈ s ∨ x = M.build r := by
  induction s with
  | nil => simpa [upFirst] using h
  | cons a s ih =>
      by_cases ha : M.keyA a = M.keyR r
      · rw [upFirst, if_pos ha] at h
        rcases List.mem_cons.mp h with h' | h'
        · exact Or.inr h'
        · exact Or.inl (List.mem_cons_of_mem _ h')
      · rw [upFirst, if_neg ha] at h
        rcases List.mem_cons.mp h with h' | h'
        · exact Or.inl (h' ▸ List.mem_cons_self a s)
        · rcases ih h' with h'' | h''
          · exact Or.inl (List.mem_cons_of_mem _ h'')
          · exact Or.inr h''

theorem mem_mergeStore {x : α} {R : List ρ} :
    ∀ {s : List α}, x ∈ M.mergeStore s R → x ∈ s ∨ ∃ r ∈ R, x = M.build r := by
  induction R with
  | nil => intro s h; exact Or.inl h
  | cons r R ih =>
      intro s h
      rw [mergeStore, List.foldl_cons] at h
      rcases ih h with h' | h'
      · rcases M.mem_upFirst h' with h'' | h''
        · exact Or.inl h''
        · exact Or.inr ⟨r, by simp, h''⟩
      · obtain ⟨r', hr', hx⟩ := h'
        exact Or.inr ⟨r', List.mem_cons_of_mem _ hr', hx⟩

theorem stampAux_seen_irrel {r : ρ} {R : List ρ} :
    ∀ (s : List α) (seen : List String), M.keyR r ∈ seen →
      M.stampAux (r :: R) s seen = M.stampAux R s seen := by
  intro s
  induction s with
  | nil => intro seen _; rfl
  | cons a s ih =>
      intro seen hseen
      rw [stampAux, stampAux, ih (seen ++ [M.keyA a]) (by simp [hseen])]
      by_cases ha : M.keyA a ∈ seen
      · rw [if_pos ha, if_pos ha]
      · rw [if_neg ha, if_neg ha]
        have hne : M.keyR r ≠ M.keyA a := fun he => ha (he ▸ hseen)
        rw [stampOne, stampOne, M.lastFor_cons_ne hne]

theorem stampAux_absent {r : ρ} {R : List ρ} :
    ∀ (s : List α) (seen : List String), (∀ a ∈ s, M.keyA a ≠ M.keyR r) →
      M.stampAux (r :: R) s seen = M.stampAux R s seen := by
  intro s
  induction s with
  | nil => intro seen _; rfl
  | cons a s ih =>
      intro seen habs
      rw [stampAux, stampAux, ih (seen ++ [M.keyA a]) (fun b hb => habs b (by simp [hb]))]
      by_cases ha : M.keyA a ∈ seen
      · rw [if_pos ha, if_pos ha]
      · rw [if_neg ha, if_neg ha]
        have hne : M.keyR r ≠ M.keyA a := fun he => habs a (by simp) he.symm
        rw [stampOne, stampOne, M.lastFor_cons_ne hne]

theorem stampAux_upFirst {r : ρ} {R : List ρ} :
    ∀ (s : List α) (seen : List String),
      (∃ a ∈ s, M.keyA a = M.keyR r) → M.keyR r ∉ seen →
      M.stampAux R (M.upFirst r s) seen = M.stampAux (r :: R) s seen := by
  intro s
  induction s with
  | nil => intro seen h _; simp at h
  | cons a s ih =>
      intro seen hin hseen
      by_cases ha : M.keyA a = M.keyR r
      · rw [upFirst, if_pos ha, stampAux, stampAux]
        have hbk : M.keyA (M.build r) = M.keyA a := (M.hkey r).trans ha.symm
        rw [hbk, ha]
        rw [if_neg hseen, if_neg hseen]
        rw [M.stampAux_seen_irrel s (seen ++ [M.keyR r]) (by simp)]
        have hheads : M.stampOne R (M.build r) = M.stampOne (r :: R) a := by
          rw [stampOne, stampOne, M.hkey, ha, M.lastFor_cons_eq rfl]
          cases hl : M.lastFor R (M.keyR r) with
          | some x => simp
          | none => simp
        rw [hheads]
      · rw [upFirst, if_neg ha, stampAux, stampAux]
        obtain ⟨b, hb, hkb⟩ := hin
        rcases List.mem_cons.mp hb with hb' | hb'
        · exact absurd (hb' ▸ hkb) ha
        · rw [ih (seen ++ [M.keyA a]) ⟨b, hb', hkb⟩
            (by simp [hseen]; exact fun he => ha he.symm)]
          by_cases has : M.keyA a ∈ seen
          · rw [if_pos has, if_pos has]
          · rw [if_neg has, if_neg has]
            have hne : M.keyR r ≠ M.keyA a := fun he => ha he.symm
            rw [stampOne, stampOne, M.lastFor_cons_ne hne]

theorem mergeStore_char : ∀ (R : List ρ) (s : List α),
    M.mergeStore s R = M.stampAux R s [] ++ M.newTail (s.map M.keyA) R := by
  intro R
  induction R with
  | nil =>
      intro s
      rw [mergeStore, List.foldl_nil, stampAux_nil_batch, newTail, List.append_nil]
  | cons r R ih =>
      intro s
      rw [mergeStore, List.foldl_cons]
      have hstep : List.foldl (fun s r => M.upFirst r s) (M.upFirst r s) R =
          M.mergeStore (M.upFirst r s) R := rfl
      rw [hstep, ih (M.upFirst r s)]
      by_cases hpres : ∃ a ∈ s, M.keyA a = M.keyR r
      · rw [M.stampAux_upFirst s [] hpres (by simp),
          M.map_keyA_upFirst_present hpres, newTail,
          if_pos (by obtain ⟨a, ha, hk⟩ := hpres; exact hk ▸ List.mem_map_of_mem _ ha)]
      · push_neg at hpres
        have habs : ∀ a ∈ s, M.keyA a ≠ M.keyR r := hpres
        have hnotin : M.keyR r ∉ s.map M.keyA := by
          intro hmem
          obtain ⟨a, ha, hk⟩ := List.mem_map.mp hmem
          exact habs a ha hk
        rw [M.upFirst_of_absent habs, stampAux_append]
        rw [M.stampAux_absent s [] habs]
        rw [List.map_append, List.map_singleton, M.hkey]
        rw [newTail, if_neg hnotin]
        rw [List.nil_append, stampAux]
        rw [if_neg (by rw [M.hkey]; exact hnotin), M.hkey]
        rw [stampAux]
        simp

theorem stampAux_id (R : List ρ) :
    ∀ (l : List α) (seen : List String),
      (∀ a, l.find? (fun b => M.keyA b == M.keyA a) = some a →
        M.keyA a ∉ seen → M.stampOne R a = a) →
      M.stampAux R l seen = l := by
  intro l
  induction l with
  | nil => intro seen _; rfl
  | cons a0 l ih =>
      intro seen H
      have htail : M.stampAux R l (seen ++ [M.keyA a0]) = l := by
        refine ih (seen ++ [M.keyA a0]) ?_
        intro c hc hcseen
        have hcs : M.keyA c ∉ seen := fun h => hcseen (by simp [h])
        have hca : M.keyA c ≠ M.keyA a0 := fun h => hcseen (by simp [h])
        refine H c ?_ hcs
        rw [List.find?_cons_of_neg _ (by simp; exact fun h => hca h.symm)]
        exact hc
      rw [stampAux, htail]
      by_cases hseen : M.keyA a0 ∈ seen
      · rw [if_pos hseen]
      · rw [if_neg hseen]
        rw [H a0 (by rw [List.find?_cons_of_pos _ (by simp)]) hseen]

theorem find?_stampAux (R : List ρ) (d : String) :
    ∀ (s : List α) (seen : List String), d ∉ seen →
      (M.stampAux R s seen).find? (fun b => M.keyA b == d) =
        (s.find? (fun b => M.keyA b == d)).map (M.stampOne R) := by
  intro s
  induction s with
  | nil => intro seen _; rfl
  | cons a s ih =>
      intro seen hd
      rw [stampAux]
      by_cases ha : M.keyA a = d
      · have hnseen : M.keyA a ∉ seen := ha ▸ hd
        rw [if_neg hnseen]
        rw [List.find?_cons_of_pos _ (by simp [keyA_stampOne, ha])]
        rw [List.find?_cons_of_pos _ (by simp [ha])]
        rfl
      · have hhead : M.keyA (if M.keyA a ∈ seen then a else M.stampOne R a) = M.keyA a := by
          by_cases h : M.keyA a ∈ seen
          · rw [if_pos h]
          · rw [if_neg h, keyA_stampOne]
        rw [List.find?_cons_of_neg _ (by simp [hhead]; exact fun h => ha h)]
        rw [List.find?_cons_of_neg _ (by simp; exact fun h => ha h)]
        exact ih (seen ++ [M.keyA a]) (by simp [hd]; exact fun h => ha h.symm)

theorem find?_newTail_some (d : String) {rs : ρ} :
    ∀ (R : List ρ) (ds : List String), d ∉ ds → M.lastFor R d = some rs →
      (M.newTail ds R).find? (fun b => M.keyA b == d) = some (M.build rs) := by
  intro R
  induction R with
  | nil => intro ds _ hl; simp [lastFor] at hl
  | cons r R ih =>
      intro ds hd hl
      rw [newTail]
      by_cases hin : M.keyR r ∈ ds
      · rw [if_pos hin]
        have hne : M.keyR r ≠ d := fun h => hd (h ▸ hin)
        rw [M.lastFor_cons_ne hne] at hl
        exact ih ds hd hl
      · rw [if_neg hin]
        by_cases heq : M.keyR r = d
        · rw [List.find?_cons_of_pos _ (by simp [keyA_stampOne, M.hkey, heq])]
          rw [M.lastFor_cons_eq heq] at hl
          have hv := Option.some_inj.mp hl
          rw [stampOne, M.hkey, heq]
          cases hR : M.lastFor R d with
          | some x => rw [hR] at hv; simp at hv; rw [hv]
          | none => rw [hR] at hv; simp at hv; rw [hv]
        · rw [List.find?_cons_of_neg _ (by
            simp [keyA_stampOne, M.hkey]; exact fun h => heq h)]
          rw [M.lastFor_cons_ne heq] at hl
          exact ih (ds ++ [M.keyR r]) (by simp [hd]; exact fun h => heq h.symm) hl

theorem mem_newTail {x : α} :
    ∀ (R : List ρ) (ds : List String), x ∈ M.newTail ds R →
      M.keyA x ∉ ds ∧ ∃ rs, M.lastFor R (M.keyA x) = some rs ∧ x = M.build rs := by
  intro R
  induction R with
  | nil => intro ds h; simp [newTail] at h
  | cons r R ih =>
      intro ds h
      rw [newTail] at h
      by_cases hin : M.keyR r ∈ ds
      · rw [if_pos hin] at h
        obtain ⟨hnot, rs, hl, hx⟩ := ih ds h
        have hne : M.keyR r ≠ M.keyA x := fun he => hnot (he ▸ hin)
        exact ⟨hnot, rs, by rw [M.lastFor_cons_ne hne]; exact hl, hx⟩
      · rw [if_neg hin] at h
        rcases List.mem_cons.mp h with hx | hx
        · have hkx : M.keyA x = M.keyR r := by
            rw [hx, keyA_stampOne, M.hkey]
          refine ⟨hkx ▸ hin, ?_⟩
          rw [hkx, M.lastFor_cons_eq rfl]
          refine ⟨(M.lastFor R (M.keyR r)).getD r, rfl, ?_⟩
          rw [hx, stampOne, M.hkey]
          cases hR : M.lastFor R (M.keyR r) with
          | some y => simp
          | none => simp
        · obtain ⟨hnot, rs, hl, hxv⟩ := ih (ds ++ [M.keyR r]) hx
          have hne : M.keyR r ≠ M.keyA x := by
            intro he
            exact hnot (by simp [he])
          refine ⟨fun hc => hnot (by simp [hc]), rs, ?_, hxv⟩
          rw [M.lastFor_cons_ne hne]
          exact hl

/-- The whole body of `storeUsageData` after the load: run the upsert loop,
sort ascending by the parsed date time `tv`, and keep only entries whose
date time is at least the retention `cutoff` (`now − 2 years`). -/
def storeCore (tv : String → Int) (cutoff : Int) (s : List α) (R : List ρ) : List α :=
  (sortByKey (fun a => tv (M.keyA a)) (M.mergeStore s R)).filter
    (fun a => decide (cutoff ≤ tv (M.keyA a)))

theorem storeCore_sorted (tv : String → Int) (cutoff : Int) (s : List α) (R : List ρ) :
    (M.storeCore tv cutoff s R).Pairwise
      (fun x y => tv (M.keyA x) ≤ tv (M.keyA y)) :=
  List.Pairwise.sublist (List.filter_sublist _) (sortByKey_sorted _)

theorem storeCore_retention (tv : String → Int) (cutoff : Int) (s : List α)
    (R : List ρ) {x : α} (hx : x ∈ M.storeCore tv cutoff s R) :
    cutoff ≤ tv (M.keyA x) := by
  have := (List.mem_filter.mp hx).2
  simpa using this

theorem mem_storeCore {tv : String → Int} {cutoff : Int} {s : List α}
    {R : List ρ} {x : α} (hx : x ∈ M.storeCore tv cutoff s R) :
    x ∈ s ∨ ∃ r ∈ R, x = M.build r :=
  M.mem_mergeStore (mem_sortByKey.mp (List.mem_filter.mp hx).1)

theorem find?_storeCore_build {s : List α}
    {R : List ρ} {d : String} {rs : ρ} (hl : M.lastFor R d = some rs) :
    ((M.mergeStore s R).find? (fun b => M.keyA b == d)) = some (M.build rs) := by
  rw [M.mergeStore_char, List.find?_append]
  by_cases hpres : d ∈ s.map M.keyA
  · obtain ⟨a0, ha0⟩ := Option.isSome_iff_exists.mp
      (List.find?_isSome.mpr (by
        obtain ⟨a, ha, hk⟩ := List.mem_map.mp hpres
        refine ⟨a, ha, ?_⟩
        show (M.keyA a == d) = true
        simp [hk]))
    rw [M.find?_stampAux R d s [] (by simp), ha0, Option.map_some']
    have hka0 : M.keyA a0 = d := by
      have := List.find?_some ha0
      simpa using this
    rw [Option.or_some]
    rw [stampOne, hka0, hl]
  · have hpre : (M.stampAux R s []).find? (fun b => M.keyA b == d) = none := by
      rw [List.find?_eq_none]
      intro x hx
      have hkx : M.keyA x ∈ s.map M.keyA := by
        rw [← M.map_keyA_stampAux R s []]
        exact List.mem_map_of_mem _ hx
      simp only [beq_iff_eq]
      intro he
      exact hpres (he ▸ hkx)
    rw [hpre, Option.none_or]
    exact M.find?_newTail_some d R (s.map M.keyA) hpres hl

theorem storeCore_idem (tv : String → Int) (cutoff : Int) (s : List α) (R : List ρ) :
    M.storeCore tv cutoff (M.storeCore tv cutoff s R) R =
      M.storeCore tv cutoff s R := by
  set p : α → Bool := fun a => decide (cutoff ≤ tv (M.keyA a)) with hp
  set kf : α → Int := fun a => tv (M.keyA a) with hkf
  set O : List α := M.storeCore tv cutoff s R with hO
  have hOsorted : O.Pairwise (fun x y => kf x ≤ kf y) :=
    M.storeCore_sorted tv cutoff s R
  have hOfilter : O.filter p = O := by
    rw [List.filter_eq_self]
    intro a ha
    have := M.storeCore_retention tv cutoff s R ha
    simp [hp, this]
  -- any first occurrence of a batch date key in O already holds the record
  -- built from the last batch element with that key
  have hstamp : M.stampAux R O [] = O := by
    refine M.stampAux_id R O [] ?_
    intro a hfind _
    rw [stampOne]
    cases hl : M.lastFor R (M.keyA a) with
    | none => rfl
    | some rs =>
        -- the first record with this key in the merged list is `build rs`
        have hq : ∀ x y : α, (M.keyA x == M.keyA a) = true →
            (M.keyA y == M.keyA a) = true → p x = p y := by
          intro x y hx hy
          have hx' : M.keyA x = M.keyA a := by simpa using hx
          have hy' : M.keyA y = M.keyA a := by simpa using hy
          simp [hp, hx', hy']
        have hkq : ∀ x y : α, (M.keyA x == M.keyA a) = true →
            (M.keyA y == M.keyA a) = true → kf x = kf y := by
          intro x y hx hy
          have hx' : M.keyA x = M.keyA a := by simpa using hx
          have hy' : M.keyA y = M.keyA a := by simpa using hy
          simp [hkf, hx', hy']
        have hOdef : O = (sortByKey kf (M.mergeStore s R)).filter p := by
          rw [hO]; rfl
        have hfind' : ((sortByKey kf (M.mergeStore s R)).filter p).find?
            (fun b => M.keyA b == M.keyA a) = some a := by
          rw [← hOdef]; exact hfind
        have h1 : (sortByKey kf (M.mergeStore s R)).find?
            (fun b => M.keyA b == M.keyA a) = some a :=
          find?_filter_some hq hfind'
        have h2 : (M.mergeStore s R).find? (fun b => M.keyA b == M.keyA a) = some a := by
          rw [← find?_sortByKey (fun b => M.keyA b == M.keyA a) hkq]
          exact h1
        rw [M.find?_storeCore_build hl] at h2
        show M.build rs = a
        exact Option.some_inj.mp h2
  -- every appended record has a date key that was filtered out, so it is
  -- filtered out again
  have htail : ∀ x ∈ M.newTail (O.map M.keyA) R, p x = false := by
    intro x hx
    obtain ⟨hnot, rs, hl, hxv⟩ := M.mem_newTail R (O.map M.keyA) hx
    by_contra hpx
    have hpx' : p x = true := by
      cases h : p x
      · exact absurd h hpx
      · rfl
    have hmem : M.build rs ∈ M.mergeStore s R :=
      List.mem_of_find?_eq_some (M.find?_storeCore_build hl)
    have hmem2 : M.build rs ∈ sortByKey kf (M.mergeStore s R) :=
      mem_sortByKey.mpr hmem
    have hmemO : M.build rs ∈ O := by
      rw [hO, storeCore]
      exact List.mem_filter.mpr ⟨hmem2, by rw [← hxv]; exact hxv ▸ hpx'⟩
    exact hnot (by rw [hxv]; exact List.mem_map_of_mem _ hmemO)
  calc M.storeCore tv cutoff O R
      = (sortByKey kf (M.stampAux R O [] ++ M.newTail (O.map M.keyA) R)).filter p := by
        rw [storeCore, M.mergeStore_char]
    _ = (sortByKey kf (O ++ M.newTail (O.map M.keyA) R)).filter p := by rw [hstamp]
    _ = sortByKey kf ((O ++ M.newTail (O.map M.keyA) R).filter p) := by
        rw [filter_sortByKey]
    _ = sortByKey kf (O.filter p ++ (M.newTail (O.map M.keyA) R).filter p) := by
        rw [List.filter_append]
    _ = sortByKey kf (O ++ []) := by
        rw [hOfilter, List.filter_eq_nil_iff.mpr (by
          intro x hx
          simp [htail x hx])]
    _ = O := by rw [List.append_nil, sortByKey_eq_self hOsorted]

end UpsertModel

/-- `filter` after `map` pulled back through the map. -/
theorem filter_map_pull {γ δ : Type} (f : γ → δ) (p : δ → Bool) (l : List γ) :
    (l.map f).filter p = (l.filter (fun a => p (f a))).map f := by
  induction l with
  | nil => rfl
  | cons a l ih =>
      rw [List.map_cons, List.filter_cons, List.filter_cons]
      cases h : p (f a) with
      | true => rw [if_pos (by simp [h]), if_pos (by simp [h]), List.map_cons, ih]
      | false => rw [if_neg (by simp [h]), if_neg (by simp [h]), ih]

namespace UpsertModel

variable {ρ α α' : Type} (M : UpsertModel ρ α) (N : UpsertModel ρ α')

theorem map_upFirst (π : α → α') (hπk : ∀ a, N.keyA (π a) = M.keyA a)
    (hπb : ∀ r, π (M.build r) = N.build r) (hRR : ∀ r, N.keyR r = M.keyR r)
    (r : ρ) : ∀ s : List α, (M.upFirst r s).map π = N.upFirst r (s.map π) := by
  intro s
  induction s with
  | nil => simp [upFirst, hπb]
  | cons a s ih =>
      by_cases h : M.keyA a = M.keyR r
      · rw [upFirst, if_pos h, List.map_cons, List.map_cons, upFirst,
          if_pos (by rw [hπk, hRR]; exact h), hπb]
      · rw [upFirst, if_neg h, List.map_cons, List.map_cons, upFirst,
          if_neg (by rw [hπk, hRR]; exact h), ih]

theorem map_mergeStore (π : α → α') (hπk : ∀ a, N.keyA (π a) = M.keyA a)
    (hπb : ∀ r, π (M.build r) = N.build r) (hRR : ∀ r, N.keyR r = M.keyR r) :
    ∀ (R : List ρ) (s : List α),
      (M.mergeStore s R).map π = N.mergeStore (s.map π) R := by
  intro R
  induction R with
  | nil => intro s; rfl
  | cons r R ih =>
      intro s
      rw [mergeStore, List.foldl_cons, mergeStore, List.foldl_cons]
      have h1 : List.foldl (fun s r => M.upFirst r s) (M.upFirst r s) R =
          M.mergeStore (M.upFirst r s) R := rfl
      have h2 : List.foldl (fun s r => N.upFirst r s) (N.upFirst r (s.map π)) R =
          N.mergeStore (N.upFirst r (s.map π)) R := rfl
      rw [h1, h2, ih (M.upFirst r s), M.map_upFirst N π hπk hπb hRR r s]

theorem map_storeCore (π : α → α') (hπk : ∀ a, N.keyA (π a) = M.keyA a)
    (hπb : ∀ r, π (M.build r) = N.build r) (hRR : ∀ r, N.keyR r = M.keyR r)
    (tv : String → Int) (cutoff : Int) (s : List α) (R : List ρ) :
    (M.storeCore tv cutoff s R).map π = N.storeCore tv cutoff (s.map π) R := by
  rw [storeCore, storeCore, ← M.map_mergeStore N π hπk hπb hRR R s]
  rw [← @map_sortByKey α Int _ (fun a => tv (M.keyA a)) α' π (fun a => tv (N.keyA a))
    (fun x => by show tv (N.keyA (π x)) = tv (M.keyA x); rw [hπk]) (M.mergeStore s R)]
  rw [filter_map_pull]
  congr 1
  refine List.filter_congr ?_
  intro x _
  rw [hπk]

end UpsertModel

namespace UpsertModel

variable {ρ α : Type} (M : UpsertModel ρ α)

theorem upFirst_present {r : ρ} :
    ∀ {s : List α}, (∃ a ∈ s, M.keyA a = M.keyR r) →
      ∃ i a, s[i]? = some a ∧ M.keyA a = M.keyR r ∧
        (∀ j, j < i → ∀ b, s[j]? = some b → M.keyA b ≠ M.keyR r) ∧
        M.upFirst r s = s.set i (M.build r) := by
  intro s
  induction s with
  | nil => intro h; simp at h
  | cons a s ih =>
      intro h
      by_cases ha : M.keyA a = M.keyR r
      · refine ⟨0, a, by simp, ha, by omega, ?_⟩
        rw [upFirst, if_pos ha]
        rfl
      · obtain ⟨b, hb, hkb⟩ := h
        rcases List.mem_cons.mp hb with hb' | hb'
        · exact absurd (hb' ▸ hkb) ha
        · obtain ⟨i, c, hc, hkc, hfirst, heq⟩ := ih ⟨b, hb', hkb⟩
          refine ⟨i + 1, c, by simpa using hc, hkc, ?_, ?_⟩
          · intro j hj b' hb''
            cases j with
            | zero =>
                simp at hb''
                exact hb'' ▸ ha
            | succ j' =>
                have hb''' : s[j']? = some b' := by simpa using hb''
                exact hfirst j' (by omega) b' hb'''
          · rw [upFirst, if_neg ha, heq, List.set_cons_succ]

end UpsertModel

/-! ## Source embedding: data model of `collector/src/duke.ts` -/

/-- Interpretation of the JavaScript `Date` constructor on stored date
strings: epoch time (`getTime`), calendar year (`getFullYear`) and 0-based
month (`getMonth`), the three projections the code applies to parsed dates. -/
structure DateEnv where
  time : String → Int
  year : String → Int
  month : String → Nat

/-- `parseFloat(x.toFixed(3))`: round half away from zero to 3 decimal
places (all rounded quantities in the code are non-negative, so round half
up). -/
def round3 (x : Rat) : Rat := ((⌊x * 1000 + 1 / 2⌋ : Int) : Rat) / 1000

/-- JavaScript truthiness of an optional string-valued environment field
(`undefined` and `""` are falsy). -/
def truthy : Option String → Bool
  | none => false
  | some s => !(s == "")

/-- JavaScript `a || b` for an optional string with a string fallback. -/
def jsStrOr (a : Option String) (b : String) : String :=
  match a with
  | none => b
  | some s => if s = "" then b else s

/-- JavaScript `a || b` on optional numbers (`0` is falsy, as in
`reading.energy || reading.usage_kwh`). -/
def jsRatOr (a b : Option Rat) : Option Rat :=
  match a with
  | none => b
  | some q => if q = 0 then b else some q

/-- A processed gas reading: the element shape produced by `processGasData`
and consumed by `storeUsageData(…, 'GAS')`. -/
structure GasReading where
  date : String
  full_date : String
  usage_ccf : Rat
  average_ccf : Option Rat
  unit : String
  timestamp : String
deriving DecidableEq

/-- One stored gas history record (a JSON object of the gas history file). -/
structure GasRec where
  date : String
  date_label : String
  usage_ccf : Rat
  usage_therms : Rat
  average_ccf : Option Rat
  unit : String
  timestamp : String
  created_at : String
deriving DecidableEq

/-- The `new_record` built by the gas branch of the upsert loop:
`usage_therms = parseFloat((reading.usage_ccf * 1.037).toFixed(3))`,
`created_at = new Date().toISOString()` (the `now` argument). -/
def mkGasRecord (now : String) (r : GasReading) : GasRec :=
  { date := r.full_date,
    date_label := r.date,
    usage_ccf := r.usage_ccf,
    usage_therms := round3 (r.usage_ccf * (1037 / 1000)),
    average_ccf := r.average_ccf,
    unit := r.unit,
    timestamp := r.timestamp,
    created_at := now }

/-- An electric reading handed to `storeUsageData(…, 'ELECTRIC')` (fields
some producers leave `undefined` are `Option`s). -/
structure ElecReading where
  date : String
  full_date : Option String
  date_label : Option String
  energy : Option Rat
  usage_kwh : Option Rat
  startTime : Option String
  endTime : Option String
  timestamp : Option String
deriving DecidableEq

/-- One stored electric history record. -/
structure ElecRec where
  date : String
  date_label : String
  usage_kwh : Option Rat
  start_time : Option String
  end_time : Option String
  unit : String
  timestamp : String
  created_at : String
deriving DecidableEq

/-- The `new_record` built by the electric branch of the upsert loop
(`date = reading.full_date || reading.date`, `usage_kwh = reading.energy ||
reading.usage_kwh`, `unit = 'kWh'`, `timestamp = reading.timestamp || now`). -/
def mkElecRecord (now : String) (r : ElecReading) : ElecRec :=
  { date := jsStrOr r.full_date r.date,
    date_label := jsStrOr r.date_label r.date,
    usage_kwh := jsRatOr r.energy r.usage_kwh,
    start_time := r.startTime,
    end_time := r.endTime,
    unit := "kWh",
    timestamp := jsStrOr r.timestamp now,
    created_at := now }

/-- Upsert-loop shape for `serviceType === 'GAS'` at write time `now`: the
date key of a reading is `reading.full_date`, of a record `record.date`. -/
def gasModel (now : String) : UpsertModel GasReading GasRec where
  keyR := GasReading.full_date
  keyA := GasRec.date
  build := mkGasRecord now
  hkey := fun _ => rfl

/-- Upsert-loop shape for `serviceType === 'ELECTRIC'` at write time `now`:
the date key is `reading.full_date || reading.date`. -/
def elecModel (now : String) : UpsertModel ElecReading ElecRec where
  keyR := fun r => jsStrOr r.full_date r.date
  keyA := ElecRec.date
  build := mkElecRecord now
  hkey := fun _ => rfl

/-- One iteration of the gas upsert loop of `storeUsageData`:
`findIndex(record => record.date === dateKey)`, replace at that index, else
push the new record. -/
def upsertGas (now : String) (hist : List GasRec) (r : GasReading) : List GasRec :=
  match hist.findIdx? (fun rec => rec.date == r.full_date) with
  | some i => hist.set i (mkGasRecord now r)
  | none => hist ++ [mkGasRecord now r]

/-- One iteration of the electric upsert loop of `storeUsageData`
(`dateKey = reading.full_date || reading.date`). -/
def upsertElec (now : String) (hist : List ElecRec) (r : ElecReading) : List ElecRec :=
  match hist.findIdx? (fun rec => rec.date == jsStrOr r.full_date r.date) with
  | some i => hist.set i (mkElecRecord now r)
  | none => hist ++ [mkElecRecord now r]

/-- `storeUsageData(usage_data, 'GAS')` as a function of the loaded store:
`none` models the early `return` (no file write) on an empty batch; `some l`
models rewriting the history file with `l`.  `E` interprets date strings,
`now` is `new Date().toISOString()` at write time, and `cutoff` is the epoch
time of `two_years_ago` (now minus 2 years): after the upsert loop the store
is sorted ascending by `new Date(record.date).getTime()` and entries with
`new Date(record.date) < two_years_ago` are dropped. -/
def storeUsageGas (E : DateEnv) (now : String) (cutoff : Int)
    (store : List GasRec) (batch : List GasReading) : Option (List GasRec) :=
  if batch.isEmpty then none
  else
    some ((sortByKey (fun rec => E.time rec.date) (batch.foldl (upsertGas now) store)).filter
      (fun rec => decide (cutoff ≤ E.time rec.date)))

/-- `storeUsageData(usage_data, 'ELECTRIC')`, same shape as the gas case. -/
def storeUsageElec (E : DateEnv) (now : String) (cutoff : Int)
    (store : List ElecRec) (batch : List ElecReading) : Option (List ElecRec) :=
  if batch.isEmpty then none
  else
    some ((sortByKey (fun rec => E.time rec.date) (batch.foldl (upsertElec now) store)).filter
      (fun rec => decide (cutoff ≤ E.time rec.date)))

theorem upsertGas_eq (now : String) (hist : List GasRec) (r : GasReading) :
    upsertGas now hist r = (gasModel now).upFirst r hist :=
  (gasModel now).upIdx_eq_upFirst r hist

theorem upsertElec_eq (now : String) (hist : List ElecRec) (r : ElecReading) :
    upsertElec now hist r = (elecModel now).upFirst r hist :=
  (elecModel now).upIdx_eq_upFirst r hist

theorem storeUsageGas_eq (E : DateEnv) (now : String) (cutoff : Int)
    (store : List GasRec) (batch : List GasReading) :
    storeUsageGas E now cutoff store batch =
      if batch.isEmpty then none
      else some ((gasModel now).storeCore E.time cutoff store batch) := by
  rw [storeUsageGas]
  have hfold : batch.foldl (upsertGas now) store = (gasModel now).mergeStore store batch := by
    rw [UpsertModel.mergeStore]
    have : upsertGas now = fun s r => (gasModel now).upFirst r s :=
      funext fun s => funext fun r => upsertGas_eq now s r
    rw [this]
  rw [hfold]
  rfl

theorem storeUsageElec_eq (E : DateEnv) (now : String) (cutoff : Int)
    (store : List ElecRec) (batch : List ElecReading) :
    storeUsageElec E now cutoff store batch =
      if batch.isEmpty then none
      else some ((elecModel now).storeCore E.time cutoff store batch) := by
  rw [storeUsageElec]
  have hfold : batch.foldl (upsertElec now) store = (elecModel now).mergeStore store batch := by
    rw [UpsertModel.mergeStore]
    have : upsertElec now = fun s r => (elecModel now).upFirst r s :=
      funext fun s => funext fun r => upsertElec_eq now s r
    rw [this]
  rw [hfold]
  rfl

/-- The observable part of a stored gas record: everything except the
bookkeeping timestamps (`created_at`, and the per-reading `timestamp`). -/
structure GasObs where
  date : String
  date_label : String
  usage_ccf : Rat
  usage_therms : Rat
  average_ccf : Option Rat
  unit : String
deriving DecidableEq

def gasObs (a : GasRec) : GasObs :=
  { date := a.date, date_label := a.date_label, usage_ccf := a.usage_ccf,
    usage_therms := a.usage_therms, average_ccf := a.average_ccf, unit := a.unit }

/-- The observable part of a stored electric record (everything except
`created_at` and `timestamp`). -/
structure ElecObs where
  date : String
  date_label : String
  usage_kwh : Option Rat
  start_time : Option String
  end_time : Option String
  unit : String
deriving DecidableEq

def elecObs (a : ElecRec) : ElecObs :=
  { date := a.date, date_label := a.date_label, usage_kwh := a.usage_kwh,
    start_time := a.start_time, end_time := a.end_time, unit := a.unit }

/-- The observable record built from a gas reading — independent of the
write time `now`. -/
def mkGasObs (r : GasReading) : GasObs :=
  { date := r.full_date, date_label := r.date, usage_ccf := r.usage_ccf,
    usage_therms := round3 (r.usage_ccf * (1037 / 1000)),
    average_ccf := r.average_ccf, unit := r.unit }

/-- The observable record built from an electric reading — independent of
the write time `now`. -/
def mkElecObs (r : ElecReading) : ElecObs :=
  { date := jsStrOr r.full_date r.date, date_label := jsStrOr r.date_label r.date,
    usage_kwh := jsRatOr r.energy r.usage_kwh, start_time := r.startTime,
    end_time := r.endTime, unit := "kWh" }

/-- Observable-level upsert model for gas. -/
def gasObsModel : UpsertModel GasReading GasObs where
  keyR := GasReading.full_date
  keyA := GasObs.date
  build := mkGasObs
  hkey := fun _ => rfl

/-- Observable-level upsert model for electric. -/
def elecObsModel : UpsertModel ElecReading ElecObs where
  keyR := fun r => jsStrOr r.full_date r.date
  keyA := ElecObs.date
  build := mkElecObs
  hkey := fun _ => rfl

/-- `loadHistoricalData`: return the parsed file content, or `[]` when the
file read or `JSON.parse` throws (the `catch` logs and returns `[]`). -/
def loadHistoricalData {γ : Type} (fileContent : Except Unit (List γ)) : List γ :=
  match fileContent with
  | Except.ok l => l
  | Except.error _ => []

/-! ## Monthly rollup (`createMonthlySummary`, GAS branch) -/

/-- One gas monthly-rollup entry of `createMonthlySummary`. -/
structure GasMonth where
  month : String
  total_ccf : Rat
  total_therms : Rat
  days : Nat
  average_daily_ccf : Rat
  average_daily_therms : Rat
deriving DecidableEq

/-- `n.toString().padStart(2, '0')` on a number. -/
def pad2 (n : Nat) : String :=
  if (toString n).length < 2 then "0" ++ toString n else toString n

/-- The `YYYY-MM` month key:
`date.getFullYear() + '-' + (date.getMonth() + 1).toString().padStart(2, '0')`. -/
def gasMonthKey (E : DateEnv) (rec : GasRec) : String :=
  toString (E.year rec.date) ++ "-" ++ pad2 (E.month rec.date + 1)

/-- The zero entry created when a month key is first seen. -/
def gasZero (k : String) : GasMonth :=
  { month := k, total_ccf := 0, total_therms := 0, days := 0,
    average_daily_ccf := 0, average_daily_therms := 0 }

/-- Accumulate one record into its month entry
(`total_ccf += usage_ccf; total_therms += usage_therms; days += 1`). -/
def addGasTo (m : GasMonth) (rec : GasRec) : GasMonth :=
  { m with total_ccf := m.total_ccf + rec.usage_ccf,
           total_therms := m.total_therms + rec.usage_therms,
           days := m.days + 1 }

/-- One loop iteration over `historical_data`: create the month entry when
absent, then accumulate — the JavaScript object is an insertion-ordered map
keyed by the `YYYY-MM` string, modelled as a keyed list. -/
def gasAccum (E : DateEnv) (rec : GasRec) : List GasMonth → List GasMonth
  | [] => [addGasTo (gasZero (gasMonthKey E rec)) rec]
  | m :: ms =>
      if m.month = gasMonthKey E rec then addGasTo m rec :: ms
      else m :: gasAccum E rec ms

/-- The `forEach` pass: derive `average_daily_* = total_* / days` and round
everything to 3 decimals (averages are computed from the unrounded totals,
then the totals themselves are rounded). -/
def gasFinalize (m : GasMonth) : GasMonth :=
  { m with
    average_daily_ccf := round3 (m.total_ccf / (m.days : Rat)),
    average_daily_therms := round3 (m.total_therms / (m.days : Rat)),
    total_ccf := round3 m.total_ccf,
    total_therms := round3 m.total_therms }

/-- `createMonthlySummary(historical_data, 'GAS')`: group by month key in
first-appearance order, finalize each entry, and sort ascending by the
month key (`a.month.localeCompare(b.month)`, lexicographic). -/
def createMonthlySummaryGas (E : DateEnv) (hd : List GasRec) : List GasMonth :=
  sortByKey GasMonth.month
    ((hd.foldl (fun acc rec => gasAccum E rec acc) []).map gasFinalize)

/-- Accumulating a whole list of records into a month entry (the net effect
of the grouping loop on one key). -/
def addGasAll (m : GasMonth) (recs : List GasRec) : GasMonth :=
  { m with total_ccf := m.total_ccf + (recs.map GasRec.usage_ccf).sum,
           total_therms := m.total_therms + (recs.map GasRec.usage_therms).sum,
           days := m.days + recs.length }

/-- The month entry for key `k` after grouping: existing entry extended, or
a fresh entry when any record carries the key. -/
def gasGroupValue (start : Option GasMonth) (recs : List GasRec) (k : String) :
    Option GasMonth :=
  match start, recs with
  | some m, l => some (addGasAll m l)
  | none, [] => none
  | none, l => some (addGasAll (gasZero k) l)

theorem addGasAll_nil (m : GasMonth) : addGasAll m [] = m := by
  cases m
  simp [addGasAll]

theorem addGasAll_cons (m : GasMonth) (rec : GasRec) (recs : List GasRec) :
    addGasAll (addGasTo m rec) recs = addGasAll m (rec :: recs) := by
  cases m
  simp only [addGasAll, addGasTo, List.map_cons, List.sum_cons, List.length_cons,
    GasMonth.mk.injEq, true_and, and_true]
  refine ⟨by ring, by ring, by omega⟩

theorem month_addGasTo (m : GasMonth) (rec : GasRec) :
    (addGasTo m rec).month = m.month := rfl

theorem find?_gasAccum (E : DateEnv) (rec : GasRec) (k : String) :
    ∀ acc : List GasMonth,
      (gasAccum E rec acc).find? (fun m => m.month == k) =
        if gasMonthKey E rec = k then
          match acc.find? (fun m => m.month == k) with
          | some m => some (addGasTo m rec)
          | none => some (addGasTo (gasZero k) rec)
        else acc.find? (fun m => m.month == k) := by
  intro acc
  induction acc with
  | nil =>
      by_cases hk : gasMonthKey E rec = k
      · rw [if_pos hk]
        rw [gasAccum, List.find?_cons_of_pos _ (by
          show ((addGasTo (gasZero (gasMonthKey E rec)) rec).month == k) = true
          simp [month_addGasTo, gasZero, hk])]
        rw [List.find?_nil]
        show some (addGasTo (gasZero (gasMonthKey E rec)) rec) =
          some (addGasTo (gasZero k) rec)
        rw [hk]
      · rw [if_neg hk]
        rw [gasAccum, List.find?_cons_of_neg _ (by
          show ¬ ((addGasTo (gasZero (gasMonthKey E rec)) rec).month == k) = true
          simp [month_addGasTo, gasZero, hk])]
  | cons m ms ih =>
      by_cases hm : m.month = gasMonthKey E rec
      · rw [gasAccum, if_pos hm]
        by_cases hk : gasMonthKey E rec = k
        · rw [if_pos hk]
          rw [List.find?_cons_of_pos _ (by
            show ((addGasTo m rec).month == k) = true
            simp [month_addGasTo, hm, hk])]
          rw [List.find?_cons_of_pos _ (by
            show (m.month == k) = true
            simp [hm, hk])]
        · rw [if_neg hk]
          rw [List.find?_cons_of_neg _ (by
            show ¬ ((addGasTo (m) rec).month == k) = true
            simp [month_addGasTo]; rw [hm]; exact hk)]
          rw [List.find?_cons_of_neg _ (by
            show ¬ (m.month == k) = true
            simp; rw [hm]; exact hk)]
      · rw [gasAccum, if_neg hm]
        by_cases hmk : m.month = k
        · have hk : ¬ gasMonthKey E rec = k := fun h => hm (hmk.trans h.symm)
          rw [if_neg hk]
          rw [List.find?_cons_of_pos _ (by show (m.month == k) = true; simp [hmk])]
          rw [List.find?_cons_of_pos _ (by show (m.month == k) = true; simp [hmk])]
        · rw [List.find?_cons_of_neg _ (by
            show ¬ (m.month == k) = true
            simp [hmk])]
          rw [ih]
          by_cases hk : gasMonthKey E rec = k
          · rw [if_pos hk, if_pos hk]
            rw [List.find?_cons_of_neg _ (by
              show ¬ (m.month == k) = true
              simp [hmk])]
          · rw [if_neg hk, if_neg hk]
            rw [List.find?_cons_of_neg _ (by
              show ¬ (m.month == k) = true
              simp [hmk])]

theorem gasFold_find? (E : DateEnv) (k : String) :
    ∀ (hd : List GasRec) (acc : List GasMonth),
      (hd.foldl (fun acc rec => gasAccum E rec acc) acc).find?
          (fun m => m.month == k) =
        gasGroupValue (acc.find? (fun m => m.month == k))
          (hd.filter (fun rec => gasMonthKey E rec == k)) k := by
  intro hd
  induction hd with
  | nil =>
      intro acc
      rw [List.foldl_nil, List.filter_nil]
      cases hacc : acc.find? (fun m => m.month == k) with
      | some m => rw [gasGroupValue, addGasAll_nil]
      | none => rfl
  | cons rec hd ih =>
      intro acc
      rw [List.foldl_cons, ih]
      by_cases hk : gasMonthKey E rec = k
      · rw [List.filter_cons_of_pos (by simp [hk])]
        rw [find?_gasAccum, if_pos hk]
        cases hacc : acc.find? (fun m => m.month == k) with
        | some m =>
            show some (addGasAll (addGasTo m rec) _) = some (addGasAll m _)
            rw [addGasAll_cons]
        | none =>
            show some (addGasAll (addGasTo (gasZero k) rec) _) =
              gasGroupValue none (rec :: _) k
            rw [addGasAll_cons]
            rfl
      · rw [List.filter_cons_of_neg (by simp [hk])]
        rw [find?_gasAccum, if_neg hk]

theorem months_gasAccum (E : DateEnv) (rec : GasRec) :
    ∀ acc : List GasMonth,
      (gasAccum E rec acc).map GasMonth.month =
        if gasMonthKey E rec ∈ acc.map GasMonth.month then acc.map GasMonth.month
        else acc.map GasMonth.month ++ [gasMonthKey E rec] := by
  intro acc
  induction acc with
  | nil => simp [gasAccum, month_addGasTo, gasZero]
  | cons m ms ih =>
      by_cases hm : m.month = gasMonthKey E rec
      · rw [gasAccum, if_pos hm, List.map_cons, List.map_cons, month_addGasTo,
          if_pos (by simp [← hm])]
      · rw [gasAccum, if_neg hm, List.map_cons, List.map_cons, ih]
        by_cases hin : gasMonthKey E rec ∈ ms.map GasMonth.month
        · rw [if_pos hin, if_pos (by simp [hin])]
        · rw [if_neg hin, if_neg (by
            simp only [List.mem_cons]
            push_neg
            exact ⟨fun h => hm h.symm, hin⟩)]
          rfl

theorem months_gasFold_mem (E : DateEnv) (k : String) :
    ∀ (hd : List GasRec) (acc : List GasMonth),
      (k ∈ (hd.foldl (fun acc rec => gasAccum E rec acc) acc).map GasMonth.month ↔
        k ∈ acc.map GasMonth.month ∨ ∃ rec ∈ hd, gasMonthKey E rec = k) := by
  intro hd
  induction hd with
  | nil => intro acc; simp
  | cons rec hd ih =>
      intro acc
      rw [List.foldl_cons, ih, months_gasAccum]
      by_cases hin : gasMonthKey E rec ∈ acc.map GasMonth.month
      · rw [if_pos hin]
        constructor
        · rintro (h | h)
          · exact Or.inl h
          · exact Or.inr (by obtain ⟨r, hr, hkr⟩ := h; exact ⟨r, by simp [hr], hkr⟩)
        · rintro (h | ⟨r, hr, hkr⟩)
          · exact Or.inl h
          · rcases List.mem_cons.mp hr with hr' | hr'
            · exact Or.inl (by rw [← hkr, hr']; exact hin)
            · exact Or.inr ⟨r, hr', hkr⟩
      · rw [if_neg hin]
        constructor
        · rintro (h | h)
          · rcases List.mem_append.mp h with h' | h'
            · exact Or.inl h'
            · exact Or.inr ⟨rec, by simp, (List.mem_singleton.mp h').symm⟩
          · exact Or.inr (by obtain ⟨r, hr, hkr⟩ := h; exact ⟨r, by simp [hr], hkr⟩)
        · rintro (h | ⟨r, hr, hkr⟩)
          · exact Or.inl (List.mem_append.mpr (Or.inl h))
          · rcases List.mem_cons.mp hr with hr' | hr'
            · exact Or.inl (List.mem_append.mpr (Or.inr (by simp [← hkr, hr'])))
            · exact Or.inr ⟨r, hr', hkr⟩

theorem months_gasFold_nodup (E : DateEnv) :
    ∀ (hd : List GasRec) (acc : List GasMonth),
      (acc.map GasMonth.month).Nodup →
      ((hd.foldl (fun acc rec => gasAccum E rec acc) acc).map GasMonth.month).Nodup := by
  intro hd
  induction hd with
  | nil => intro acc h; exact h
  | cons rec hd ih =>
      intro acc h
      rw [List.foldl_cons]
      refine ih (gasAccum E rec acc) ?_
      rw [months_gasAccum]
      by_cases hin : gasMonthKey E rec ∈ acc.map GasMonth.month
      · rw [if_pos hin]; exact h
      · rw [if_neg hin]
        simp [List.nodup_append, h, hin]

/-- In a list with pairwise-distinct keys, every member is what `find?`
returns for its own key. -/
theorem find?_of_mem_nodup_keys {γ : Type} (key : γ → String) :
    ∀ {l : List γ}, (l.map key).Nodup → ∀ {e : γ}, e ∈ l →
      l.find? (fun x => key x == key e) = some e := by
  intro l
  induction l with
  | nil => intro _ e he; simp at he
  | cons a t ih =>
      intro hnd e he
      rcases List.mem_cons.mp he with he' | he'
      · rw [List.find?_cons_of_pos _ (by simp [he'])]
        rw [he']
      · have hka : key a ≠ key e := by
          intro h
          have : key e ∈ t.map key := List.mem_map_of_mem _ he'
          rw [← h] at this
          exact (List.nodup_cons.mp (by simpa using hnd)).1 this
        rw [List.find?_cons_of_neg _ (by simp [hka])]
        exact ih (List.nodup_cons.mp (by simpa using hnd)).2 he'

theorem month_gasFinalize (m : GasMonth) : (gasFinalize m).month = m.month := rfl

/-! ## Gas response decoding (`processGasData`) -/

/-- The embedded JSON object of the gas response, as probed by
`processGasData` (`Series1`, `Series2`, `TickSeries`, `UnitOfMeasure`;
absent fields are `none`). -/
structure GasRaw where
  Series1 : Option (List Rat)
  Series2 : Option (List Rat)
  TickSeries : Option (List String)
  UnitOfMeasure : Option String
deriving DecidableEq

/-- `s.padStart(2, '0')` on a month/day piece of a date label. -/
def padStr2 (s : String) : String :=
  if s.length = 0 then "00" else if s.length = 1 then "0" ++ s else s

/-- One index of the `processGasData` loop: take the usage value, the
optional `Series2` average (a falsy element becomes `null`), and the `M/D`
label; a label without `/` or with an empty month/day piece throws inside
the inner `try`, which `continue`s (modelled by `none`). -/
def parseGasItem (nowIso : String) (curYear : Int) (raw : GasRaw)
    (usage_values : List Rat) (date_labels : List String) (i : Nat) :
    Option GasReading :=
  match usage_values[i]? with
  | none => none
  | some usage =>
    let average : Option Rat :=
      match raw.Series2 with
      | none => none
      | some avs =>
          match avs[i]? with
          | some v => if v = 0 then none else some v
          | none => none
    match date_labels[i]? with
    | none => none
    | some lbl =>
        if lbl.contains '/' then
          match (lbl.splitOn "/")[0]?, (lbl.splitOn "/")[1]? with
          | some mo, some da =>
              if mo ≠ "" ∧ da ≠ "" then
                some { date := lbl,
                       full_date := padStr2 mo ++ "/" ++ padStr2 da ++ "/" ++ toString curYear,
                       usage_ccf := usage,
                       average_ccf := average,
                       unit := jsStrOr raw.UnitOfMeasure "CCF",
                       timestamp := nowIso }
              else none
          | _, _ => none
        else none

/-- `processGasData(raw_data)`: empty batch when `Series1` or `TickSeries`
is falsy, else one candidate per index of `Series1` (skipping bad labels),
sorted ascending by the parsed `full_date`.  `nowIso` is
`new Date().toISOString()` and `curYear` is `new Date().getFullYear()`. -/
def processGasData (E : DateEnv) (nowIso : String) (curYear : Int)
    (raw : GasRaw) : List GasReading :=
  match raw.Series1, raw.TickSeries with
  | some usage_values, some date_labels =>
      sortByKey (fun r => E.time r.full_date)
        ((List.range usage_values.length).filterMap
          (parseGasItem nowIso curYear raw usage_values date_labels))
  | _, _ => []

/-! ## Orchestration (`valid_config`, `read_gas_api`, `fetch_once`) -/

/-- The `.env` configuration consulted by `valid_config` and `fetch_once`. -/
structure EnvConfig where
  EMAIL : Option String
  PASSWORD : Option String
  ACCOUNTNUM : Option String
  GAS_METERNUM : Option String
  ELECTRIC_METERNUM : Option String
deriving DecidableEq

/-- `valid_config()`: every required variable truthy, and at least one meter
number present and non-blank after `trim`. -/
def valid_config (c : EnvConfig) : Bool :=
  let hasRequired := truthy c.EMAIL && truthy c.PASSWORD && truthy c.ACCOUNTNUM
  if !hasRequired then false
  else
    let hasGas := truthy c.GAS_METERNUM && !((c.GAS_METERNUM.getD "").trim == "")
    let hasElectric :=
      truthy c.ELECTRIC_METERNUM && !((c.ELECTRIC_METERNUM.getD "").trim == "")
    hasGas || hasElectric

/-- The `Duke` constructor: `valid_config` decides only whether
`initHistoryFiles()` runs; an invalid configuration makes the constructor
return early but does not prevent later calls on the instance. -/
def constructorInitsHistoryFiles (c : EnvConfig) : Bool := valid_config c

/-- Outcome of `read_gas_api` as a function of the portal interaction:
`resp = none` models a throw before decoding (navigation failure, no
`{…}` match, or unparsable JSON); otherwise the parsed object is processed
with `processGasData`, stored with `storeUsageData`, and the processed
batch is returned.  The second component is the store write
(`none` = the history file is not rewritten). -/
def read_gas_api (E : DateEnv) (nowIso : String) (curYear : Int) (cutoff : Int)
    (resp : Option GasRaw) (store : List GasRec) :
    Except Unit (List GasReading × Option (List GasRec)) :=
  match resp with
  | none => Except.error ()
  | some raw =>
      let processed := processGasData E nowIso curYear raw
      Except.ok (processed, storeUsageGas E nowIso cutoff store processed)

/-- The outside-world inputs of one `fetch_once` run. -/
structure RunEnv where
  config : EnvConfig
  /-- whether the portal login interaction itself succeeds (navigation,
  selectors, navigation after submit) when driven with set credentials -/
  portalLoginOk : Bool
  /-- parsed gas response, `none` when the gas fetch or JSON match throws -/
  gasResp : Option GasRaw
  /-- content of the gas history file at run time -/
  gasStore : List GasRec
  /-- outcome of `read_electric_api`: number of processed records, or a
  thrown error -/
  elecOutcome : Except Unit Nat
  E : DateEnv
  nowIso : String
  curYear : Int
  cutoff : Int

/-- The observable outcome of a `fetch_once` run. -/
structure RunResult where
  exitCode : Nat
  browserOpened : Bool
  browserClosed : Bool
  gasSuccess : Bool
  elecSuccess : Bool
  gasPoints : Nat
  elecPoints : Nat
deriving DecidableEq

/-- `login()` succeeds only if the portal interaction succeeds and both
credential variables are set: `page.type(selector, undefined)` throws. -/
def loginSucceeds (env : RunEnv) : Bool :=
  env.portalLoginOk && truthy env.config.EMAIL && truthy env.config.PASSWORD

/-- `fetch_once()`.  `init()` opens the browser before anything can fail.
`process.exit` terminates the Node process at once without unwinding the
stack, so the `finally` block (which closes the browser and then calls
`process.exit(0)`) runs only when the `try` block completes normally, i.e.
when at least one configured utility succeeded; the `process.exit(1)` calls
inside the `try` and `catch` blocks leave the browser open. -/
def fetch_once (env : RunEnv) : RunResult :=
  if !loginSucceeds env then
    { exitCode := 1, browserOpened := true, browserClosed := false,
      gasSuccess := false, elecSuccess := false, gasPoints := 0, elecPoints := 0 }
  else
    let gasConfigured := truthy env.config.GAS_METERNUM
    let gasRun : Option (Except Unit (List GasReading × Option (List GasRec))) :=
      if gasConfigured then
        some (read_gas_api env.E env.nowIso env.curYear env.cutoff env.gasResp env.gasStore)
      else none
    let gasSuccess : Bool :=
      match gasRun with
      | some (Except.ok _) => true
      | _ => false
    let gasPoints : Nat :=
      match gasRun with
      | some (Except.ok pr) => pr.1.length
      | _ => 0
    let elecConfigured := truthy env.config.ELECTRIC_METERNUM
    let elecSuccess : Bool := elecConfigured && env.elecOutcome.isOk
    let elecPoints : Nat :=
      match elecConfigured, env.elecOutcome with
      | true, Except.ok n => n
      | _, _ => 0
    if gasSuccess || elecSuccess then
      { exitCode := 0, browserOpened := true, browserClosed := true,
        gasSuccess := gasSuccess, elecSuccess := elecSuccess,
        gasPoints := gasPoints, elecPoints := elecPoints }
    else
      { exitCode := 1, browserOpened := true, browserClosed := false,
        gasSuccess := gasSuccess, elecSuccess := elecSuccess,
        gasPoints := gasPoints, elecPoints := elecPoints }

/-! ## Projections of `fetch_once` -/

theorem fetch_once_browserOpened (env : RunEnv) :
    (fetch_once env).browserOpened = true := by
  obtain ⟨cfg, plo, gasResp, gasStore, elecOutcome, E, nowIso, curYear, cutoff⟩ := env
  cases plo <;> cases hE : truthy cfg.EMAIL <;> cases hP : truthy cfg.PASSWORD <;>
    cases hG : truthy cfg.GAS_METERNUM <;> cases hEl : truthy cfg.ELECTRIC_METERNUM <;>
      cases gasResp <;> cases elecOutcome <;>
        simp [fetch_once, read_gas_api, loginSucceeds, Except.isOk, Except.toBool,
          hE, hP, hG, hEl]

theorem fetch_once_gasSuccess (env : RunEnv) :
    (fetch_once env).gasSuccess =
      (loginSucceeds env && truthy env.config.GAS_METERNUM && env.gasResp.isSome) := by
  obtain ⟨cfg, plo, gasResp, gasStore, elecOutcome, E, nowIso, curYear, cutoff⟩ := env
  cases plo <;> cases hE : truthy cfg.EMAIL <;> cases hP : truthy cfg.PASSWORD <;>
    cases hG : truthy cfg.GAS_METERNUM <;> cases hEl : truthy cfg.ELECTRIC_METERNUM <;>
      cases gasResp <;> cases elecOutcome <;>
        simp [fetch_once, read_gas_api, loginSucceeds, Except.isOk, Except.toBool,
          hE, hP, hG, hEl]

theorem fetch_once_elecSuccess (env : RunEnv) :
    (fetch_once env).elecSuccess =
      (loginSucceeds env && truthy env.config.ELECTRIC_METERNUM &&
        env.elecOutcome.isOk) := by
  obtain ⟨cfg, plo, gasResp, gasStore, elecOutcome, E, nowIso, curYear, cutoff⟩ := env
  cases plo <;> cases hE : truthy cfg.EMAIL <;> cases hP : truthy cfg.PASSWORD <;>
    cases hG : truthy cfg.GAS_METERNUM <;> cases hEl : truthy cfg.ELECTRIC_METERNUM <;>
      cases gasResp <;> cases elecOutcome <;>
        simp [fetch_once, read_gas_api, loginSucceeds, Except.isOk, Except.toBool,
          hE, hP, hG, hEl]

theorem fetch_once_exitCode (env : RunEnv) :
    (fetch_once env).exitCode =
      if (fetch_once env).gasSuccess || (fetch_once env).elecSuccess then 0 else 1 := by
  rw [fetch_once_gasSuccess, fetch_once_elecSuccess]
  obtain ⟨cfg, plo, gasResp, gasStore, elecOutcome, E, nowIso, curYear, cutoff⟩ := env
  cases plo <;> cases hE : truthy cfg.EMAIL <;> cases hP : truthy cfg.PASSWORD <;>
    cases hG : truthy cfg.GAS_METERNUM <;> cases hEl : truthy cfg.ELECTRIC_METERNUM <;>
      cases gasResp <;> cases elecOutcome <;>
        simp [fetch_once, read_gas_api, loginSucceeds, Except.isOk, Except.toBool,
          hE, hP, hG, hEl]

theorem fetch_once_browserClosed (env : RunEnv) :
    (fetch_once env).browserClosed =
      ((fetch_once env).gasSuccess || (fetch_once env).elecSuccess) := by
  rw [fetch_once_gasSuccess, fetch_once_elecSuccess]
  obtain ⟨cfg, plo, gasResp, gasStore, elecOutcome, E, nowIso, curYear, cutoff⟩ := env
  cases plo <;> cases hE : truthy cfg.EMAIL <;> cases hP : truthy cfg.PASSWORD <;>
    cases hG : truthy cfg.GAS_METERNUM <;> cases hEl : truthy cfg.ELECTRIC_METERNUM <;>
      cases gasResp <;> cases elecOutcome <;>
        simp [fetch_once, read_gas_api, loginSucceeds, Except.isOk, Except.toBool,
          hE, hP, hG, hEl]

/-! ## Concrete values used in witness instantiations -/

/-- A concrete date interpretation for witnesses: the time of a date string
is its length. -/
def demoEnv : DateEnv :=
  { time := fun s => (s.length : Int), year := fun _ => 2024, month := fun _ => 0 }

/-- A concrete processed gas reading (2 CCF on 2024-01-01). -/
def demoGasReading : GasReading :=
  { date := "1/1", full_date := "01/01/2024", usage_ccf := 2,
    average_ccf := none, unit := "CCF", timestamp := "T0" }

/-- A concrete processed gas reading (10 CCF on 2024-01-02). -/
def demoGasReading10 : GasReading :=
  { date := "1/2", full_date := "01/02/2024", usage_ccf := 10,
    average_ccf := some 3, unit := "CCF", timestamp := "T0" }

/-- A gas reading for the same date as `demoGasReading` with different
usage and average values. -/
def demoGasReadingB : GasReading :=
  { date := "1/1", full_date := "01/01/2024", usage_ccf := 7,
    average_ccf := some 1, unit := "CCF", timestamp := "T9" }

/-- A concrete electric reading. -/
def demoElecReading : ElecReading :=
  { date := "1/1", full_date := some "01/01/2024", date_label := none,
    energy := none, usage_kwh := some 5, startTime := none, endTime := none,
    timestamp := some "T0" }

/-! ## Claims -/

/-- C1: Reconciliation is idempotent: for both utilities and every store,
reconciling a batch into a store already reconciled with the same batch
rewrites the same series, record for record and field for field, except
for the bookkeeping timestamps (`created_at` and the per-reading
`timestamp`), which `gasObs` / `elecObs` erase. -/
theorem C1_reconcile_idempotent (E : DateEnv) (cutoff : Int) (now1 now2 : String) :
    (∀ (S O1 : List GasRec) (R : List GasReading),
      storeUsageGas E now1 cutoff S R = some O1 →
      ∃ O2, storeUsageGas E now2 cutoff O1 R = some O2 ∧
        O2.map gasObs = O1.map gasObs) ∧
    (∀ (S O1 : List ElecRec) (R : List ElecReading),
      storeUsageElec E now1 cutoff S R = some O1 →
      ∃ O2, storeUsageElec E now2 cutoff O1 R = some O2 ∧
        O2.map elecObs = O1.map elecObs) := by
  constructor
  · intro S O1 R h
    rw [storeUsageGas_eq] at h
    by_cases hb : R.isEmpty
    · rw [if_pos hb] at h; exact absurd h (by simp)
    · rw [if_neg hb] at h
      have hO1 : (gasModel now1).storeCore E.time cutoff S R = O1 := Option.some_inj.mp h
      have hnat : ∀ (now : String) (S' : List GasRec),
          ((gasModel now).storeCore E.time cutoff S' R).map gasObs =
            gasObsModel.storeCore E.time cutoff (S'.map gasObs) R := fun now S' =>
        (gasModel now).map_storeCore gasObsModel gasObs
          (fun _ => rfl) (fun _ => rfl) (fun _ => rfl) E.time cutoff S' R
      refine ⟨(gasModel now2).storeCore E.time cutoff O1 R, ?_, ?_⟩
      · rw [storeUsageGas_eq, if_neg hb]
      · calc ((gasModel now2).storeCore E.time cutoff O1 R).map gasObs
            = gasObsModel.storeCore E.time cutoff (O1.map gasObs) R := hnat now2 O1
          _ = gasObsModel.storeCore E.time cutoff
                (((gasModel now1).storeCore E.time cutoff S R).map gasObs) R := by
              rw [hO1]
          _ = gasObsModel.storeCore E.time cutoff
                (gasObsModel.storeCore E.time cutoff (S.map gasObs) R) R := by
              rw [hnat now1 S]
          _ = gasObsModel.storeCore E.time cutoff (S.map gasObs) R :=
              gasObsModel.storeCore_idem E.time cutoff (S.map gasObs) R
          _ = ((gasModel now1).storeCore E.time cutoff S R).map gasObs :=
              (hnat now1 S).symm
          _ = O1.map gasObs := by rw [hO1]
  · intro S O1 R h
    rw [storeUsageElec_eq] at h
    by_cases hb : R.isEmpty
    · rw [if_pos hb] at h; exact absurd h (by simp)
    · rw [if_neg hb] at h
      have hO1 : (elecModel now1).storeCore E.time cutoff S R = O1 := Option.some_inj.mp h
      have hnat : ∀ (now : String) (S' : List ElecRec),
          ((elecModel now).storeCore E.time cutoff S' R).map elecObs =
            elecObsModel.storeCore E.time cutoff (S'.map elecObs) R := fun now S' =>
        (elecModel now).map_storeCore elecObsModel elecObs
          (fun _ => rfl) (fun _ => rfl) (fun _ => rfl) E.time cutoff S' R
      refine ⟨(elecModel now2).storeCore E.time cutoff O1 R, ?_, ?_⟩
      · rw [storeUsageElec_eq, if_neg hb]
      · calc ((elecModel now2).storeCore E.time cutoff O1 R).map elecObs
            = elecObsModel.storeCore E.time cutoff (O1.map elecObs) R := hnat now2 O1
          _ = elecObsModel.storeCore E.time cutoff
                (((elecModel now1).storeCore E.time cutoff S R).map elecObs) R := by
              rw [hO1]
          _ = elecObsModel.storeCore E.time cutoff
                (elecObsModel.storeCore E.time cutoff (S.map elecObs) R) R := by
              rw [hnat now1 S]
          _ = elecObsModel.storeCore E.time cutoff (S.map elecObs) R :=
              elecObsModel.storeCore_idem E.time cutoff (S.map elecObs) R
          _ = ((elecModel now1).storeCore E.time cutoff S R).map elecObs :=
              (hnat now1 S).symm
          _ = O1.map elecObs := by rw [hO1]

/-- Witness for C1 at a concrete store, batch and clock values. -/
theorem C1_reconcile_idempotent_witness :
    storeUsageGas demoEnv "T1" 0 [] [demoGasReading] =
      some [mkGasRecord "T1" demoGasReading] ∧
    ∃ O2, storeUsageGas demoEnv "T2" 0 [mkGasRecord "T1" demoGasReading]
        [demoGasReading] = some O2 ∧
      O2.map gasObs = [mkGasRecord "T1" demoGasReading].map gasObs := by
  have h1 : storeUsageGas demoEnv "T1" 0 [] [demoGasReading] =
      some [mkGasRecord "T1" demoGasReading] := rfl
  exact ⟨h1, (C1_reconcile_idempotent demoEnv 0 "T1" "T2").1 [] _ [demoGasReading] h1⟩

/-- C2: every reconciliation that writes the store leaves it sorted
non-decreasing by (the time of) the record date, with no record dated
before the retention cutoff (`now − 2 years`), for both utilities. -/
theorem C2_store_invariants (E : DateEnv) (now : String) (cutoff : Int) :
    (∀ (store O : List GasRec) (batch : List GasReading),
      storeUsageGas E now cutoff store batch = some O →
        O.Pairwise (fun x y => E.time x.date ≤ E.time y.date) ∧
        ∀ rec ∈ O, ¬ E.time rec.date < cutoff) ∧
    (∀ (store O : List ElecRec) (batch : List ElecReading),
      storeUsageElec E now cutoff store batch = some O →
        O.Pairwise (fun x y => E.time x.date ≤ E.time y.date) ∧
        ∀ rec ∈ O, ¬ E.time rec.date < cutoff) := by
  constructor
  · intro store O batch h
    rw [storeUsageGas_eq] at h
    by_cases hb : batch.isEmpty
    · rw [if_pos hb] at h; exact absurd h (by simp)
    · rw [if_neg hb] at h
      have hO := Option.some_inj.mp h
      constructor
      · rw [← hO]
        exact (gasModel now).storeCore_sorted E.time cutoff store batch
      · intro rec hrec
        rw [← hO] at hrec
        exact not_lt.mpr
          ((gasModel now).storeCore_retention E.time cutoff store batch hrec)
  · intro store O batch h
    rw [storeUsageElec_eq] at h
    by_cases hb : batch.isEmpty
    · rw [if_pos hb] at h; exact absurd h (by simp)
    · rw [if_neg hb] at h
      have hO := Option.some_inj.mp h
      constructor
      · rw [← hO]
        exact (elecModel now).storeCore_sorted E.time cutoff store batch
      · intro rec hrec
        rw [← hO] at hrec
        exact not_lt.mpr
          ((elecModel now).storeCore_retention E.time cutoff store batch hrec)

/-- Witness for C2 at a concrete store and batch. -/
theorem C2_store_invariants_witness :
    storeUsageGas demoEnv "T" 0 [] [demoGasReading10] =
      some [mkGasRecord "T" demoGasReading10] ∧
    ([mkGasRecord "T" demoGasReading10].Pairwise
        (fun x y => demoEnv.time x.date ≤ demoEnv.time y.date) ∧
      ∀ rec ∈ [mkGasRecord "T" demoGasReading10], ¬ demoEnv.time rec.date < 0) := by
  have h1 : storeUsageGas demoEnv "T" 0 [] [demoGasReading10] =
      some [mkGasRecord "T" demoGasReading10] := rfl
  exact ⟨h1, (C2_store_invariants demoEnv "T" 0).1 [] _ [demoGasReading10] h1⟩

/-- C3: Upsert-wins: inside the `storeUsageData` loop, a reading whose date
key matches the first existing record with that date replaces that record
entirely with the freshly built record (whose every field comes from the
reading and the write clock), and a reading with an unmatched date key is
appended at the end. -/
theorem C3_upsert_wins (now : String) :
    (∀ (hist : List GasRec) (r : GasReading),
      ((∃ old ∈ hist, old.date = r.full_date) →
        ∃ i old, hist[i]? = some old ∧ old.date = r.full_date ∧
          (∀ j, j < i → ∀ b, hist[j]? = some b → b.date ≠ r.full_date) ∧
          upsertGas now hist r = hist.set i (mkGasRecord now r)) ∧
      ((∀ old ∈ hist, old.date ≠ r.full_date) →
        upsertGas now hist r = hist ++ [mkGasRecord now r]) ∧
      (mkGasRecord now r).date = r.full_date ∧
      (mkGasRecord now r).date_label = r.date ∧
      (mkGasRecord now r).usage_ccf = r.usage_ccf ∧
      (mkGasRecord now r).usage_therms = round3 (r.usage_ccf * (1037 / 1000)) ∧
      (mkGasRecord now r).average_ccf = r.average_ccf ∧
      (mkGasRecord now r).unit = r.unit ∧
      (mkGasRecord now r).timestamp = r.timestamp ∧
      (mkGasRecord now r).created_at = now) ∧
    (∀ (hist : List ElecRec) (r : ElecReading),
      ((∃ old ∈ hist, old.date = jsStrOr r.full_date r.date) →
        ∃ i old, hist[i]? = some old ∧ old.date = jsStrOr r.full_date r.date ∧
          (∀ j, j < i → ∀ b, hist[j]? = some b → b.date ≠ jsStrOr r.full_date r.date) ∧
          upsertElec now hist r = hist.set i (mkElecRecord now r)) ∧
      ((∀ old ∈ hist, old.date ≠ jsStrOr r.full_date r.date) →
        upsertElec now hist r = hist ++ [mkElecRecord now r]) ∧
      (mkElecRecord now r).date = jsStrOr r.full_date r.date ∧
      (mkElecRecord now r).date_label = jsStrOr r.date_label r.date ∧
      (mkElecRecord now r).usage_kwh = jsRatOr r.energy r.usage_kwh ∧
      (mkElecRecord now r).start_time = r.startTime ∧
      (mkElecRecord now r).end_time = r.endTime ∧
      (mkElecRecord now r).unit = "kWh" ∧
      (mkElecRecord now r).timestamp = jsStrOr r.timestamp now ∧
      (mkElecRecord now r).created_at = now) := by
  constructor
  · intro hist r
    refine ⟨?_, ?_, rfl, rfl, rfl, rfl, rfl, rfl, rfl, rfl⟩
    · intro h
      obtain ⟨i, old, hget, hkey, hfirst, heq⟩ := (gasModel now).upFirst_present h
      exact ⟨i, old, hget, hkey, hfirst, by rw [upsertGas_eq, heq]; rfl⟩
    · intro h
      rw [upsertGas_eq, (gasModel now).upFirst_of_absent h]
      rfl
  · intro hist r
    refine ⟨?_, ?_, rfl, rfl, rfl, rfl, rfl, rfl, rfl, rfl⟩
    · intro h
      obtain ⟨i, old, hget, hkey, hfirst, heq⟩ := (elecModel now).upFirst_present h
      exact ⟨i, old, hget, hkey, hfirst, by rw [upsertElec_eq, heq]; rfl⟩
    · intro h
      rw [upsertElec_eq, (elecModel now).upFirst_of_absent h]
      rfl

/-- Witness for C3: replacing the one existing record for 2024-01-01. -/
theorem C3_upsert_wins_witness :
    ∃ i old, [mkGasRecord "T0" demoGasReading][i]? = some old ∧
      old.date = demoGasReadingB.full_date ∧
      (∀ j, j < i → ∀ b, [mkGasRecord "T0" demoGasReading][j]? = some b →
        b.date ≠ demoGasReadingB.full_date) ∧
      upsertGas "T1" [mkGasRecord "T0" demoGasReading] demoGasReadingB =
        [mkGasRecord "T0" demoGasReading].set i (mkGasRecord "T1" demoGasReadingB) :=
  ((C3_upsert_wins "T1").1 [mkGasRecord "T0" demoGasReading] demoGasReadingB).1
    ⟨mkGasRecord "T0" demoGasReading, by simp, rfl⟩

/-- C8: Gas unit conversion: every gas record built by `storeUsageData`
carries `usage_therms = round(usage_ccf * 1.037, 3)` and the unchanged
optional `average_ccf`; every record of a written store is either an old
store record or built from a batch reading this way; and `usage_ccf = 10`
gives `usage_therms = 10.370`. -/
theorem C8_gas_unit_conversion (now : String) :
    (∀ r : GasReading,
      (mkGasRecord now r).usage_therms = round3 (r.usage_ccf * (1037 / 1000)) ∧
      (mkGasRecord now r).average_ccf = r.average_ccf) ∧
    (∀ (E : DateEnv) (cutoff : Int) (store O : List GasRec)
        (batch : List GasReading),
      storeUsageGas E now cutoff store batch = some O →
      ∀ m ∈ O, m ∈ store ∨ ∃ r ∈ batch, m = mkGasRecord now r) ∧
    (∀ r : GasReading, r.usage_ccf = 10 →
      (mkGasRecord now r).usage_therms = 1037 / 100) := by
  refine ⟨fun r => ⟨rfl, rfl⟩, ?_, ?_⟩
  · intro E cutoff store O batch h m hm
    rw [storeUsageGas_eq] at h
    by_cases hb : batch.isEmpty
    · rw [if_pos hb] at h; exact absurd h (by simp)
    · rw [if_neg hb] at h
      have hO := Option.some_inj.mp h
      rw [← hO] at hm
      exact (gasModel now).mem_storeCore hm
  · intro r h
    show round3 (r.usage_ccf * (1037 / 1000)) = 1037 / 100
    rw [h]
    norm_num [round3]

/-- Witness for C8: the 10 CCF reading stores 10.370 therms. -/
theorem C8_gas_unit_conversion_witness :
    (mkGasRecord "T" demoGasReading10).usage_therms = 1037 / 100 :=
  (C8_gas_unit_conversion "T").2.2 demoGasReading10 rfl

/-- C9: when the history file cannot be read or parsed,
`loadHistoricalData` returns the empty list instead of propagating the
error, and a subsequent non-empty `storeUsageData` rewrites the file with
records built from the new batch alone — all prior history is discarded. -/
theorem C9_load_failure_discards_history (err : Unit) :
    (loadHistoricalData (Except.error err : Except Unit (List GasRec)) = [] ∧
      loadHistoricalData (Except.error err : Except Unit (List ElecRec)) = []) ∧
    (∀ (E : DateEnv) (now : String) (cutoff : Int) (batch : List GasReading),
      batch.isEmpty = false →
      ∃ O, storeUsageGas E now cutoff
          (loadHistoricalData (Except.error err)) batch = some O ∧
        ∀ m ∈ O, ∃ r ∈ batch, m = mkGasRecord now r) ∧
    (∀ (E : DateEnv) (now : String) (cutoff : Int) (batch : List ElecReading),
      batch.isEmpty = false →
      ∃ O, storeUsageElec E now cutoff
          (loadHistoricalData (Except.error err)) batch = some O ∧
        ∀ m ∈ O, ∃ r ∈ batch, m = mkElecRecord now r) := by
  refine ⟨⟨rfl, rfl⟩, ?_, ?_⟩
  · intro E now cutoff batch hb
    refine ⟨(gasModel now).storeCore E.time cutoff [] batch, ?_, ?_⟩
    · show storeUsageGas E now cutoff [] batch = _
      rw [storeUsageGas_eq, if_neg (by simp [hb])]
    · intro m hm
      rcases (gasModel now).mem_storeCore hm with h' | h'
      · simp at h'
      · exact h'
  · intro E now cutoff batch hb
    refine ⟨(elecModel now).storeCore E.time cutoff [] batch, ?_, ?_⟩
    · show storeUsageElec E now cutoff [] batch = _
      rw [storeUsageElec_eq, if_neg (by simp [hb])]
    · intro m hm
      rcases (elecModel now).mem_storeCore hm with h' | h'
      · simp at h'
      · exact h'

/-- Witness for C9 at a concrete batch. -/
theorem C9_load_failure_discards_history_witness :
    ∃ O, storeUsageGas demoEnv "T" 0
        (loadHistoricalData (Except.error () : Except Unit (List GasRec)))
        [demoGasReading] = some O ∧
      ∀ m ∈ O, ∃ r ∈ [demoGasReading], m = mkGasRecord "T" r :=
  (C9_load_failure_discards_history ()).2.1 demoEnv "T" 0 [demoGasReading] rfl

/-- C10: a gas response whose embedded JSON parses but lacks the `Series1`
or `TickSeries` arrays yields an empty processed batch, `storeUsageData`
returns without writing, `read_gas_api` succeeds with 0 records, and the
run exits 0 with the gas utility counted as a success. -/
theorem C10_empty_series_is_success (raw : GasRaw)
    (h : raw.Series1 = none ∨ raw.TickSeries = none) :
    (∀ (E : DateEnv) (nowIso : String) (curYear : Int),
      processGasData E nowIso curYear raw = []) ∧
    (∀ (E : DateEnv) (nowIso : String) (cutoff : Int) (store : List GasRec),
      storeUsageGas E nowIso cutoff store [] = none) ∧
    (∀ (E : DateEnv) (nowIso : String) (curYear cutoff : Int) (store : List GasRec),
      read_gas_api E nowIso curYear cutoff (some raw) store = Except.ok ([], none)) ∧
    (∀ env : RunEnv, env.gasResp = some raw → loginSucceeds env = true →
      truthy env.config.GAS_METERNUM = true →
      (fetch_once env).gasSuccess = true ∧ (fetch_once env).exitCode = 0 ∧
      (fetch_once env).gasPoints = 0) := by
  have hproc : ∀ (E : DateEnv) (nowIso : String) (curYear : Int),
      processGasData E nowIso curYear raw = [] := by
    intro E nowIso curYear
    obtain ⟨s1, s2, ts, u⟩ := raw
    rcases h with h | h
    · simp only at h
      subst h
      rfl
    · simp only at h
      subst h
      cases s1 <;> rfl
  refine ⟨hproc, fun _ _ _ _ => rfl, ?_, ?_⟩
  · intro E nowIso curYear cutoff store
    rw [read_gas_api, hproc]
    rfl
  · intro env hresp hl hg
    refine ⟨?_, ?_, ?_⟩
    · rw [fetch_once_gasSuccess, hl, hg, hresp]
      rfl
    · rw [fetch_once_exitCode, fetch_once_gasSuccess, hl, hg, hresp]
      rfl
    · simp only [fetch_once]
      rw [if_neg (by simp [hl])]
      rw [if_pos hg, hresp]
      have hpts : read_gas_api env.E env.nowIso env.curYear env.cutoff (some raw)
          env.gasStore = Except.ok ([], none) := by
        rw [read_gas_api, hproc]
        rfl
      rw [hpts]
      split <;> rfl

/-- A gas response object with no `Series1`/`TickSeries`. -/
def demoNoSeriesRaw : GasRaw :=
  { Series1 := none, Series2 := none, TickSeries := none, UnitOfMeasure := none }

/-- A configuration with credentials and only the gas meter set. -/
def demoGasOnlyConfig : EnvConfig :=
  { EMAIL := some "e", PASSWORD := some "p", ACCOUNTNUM := some "a",
    GAS_METERNUM := some "G", ELECTRIC_METERNUM := none }

/-- A run whose gas response decodes to an object without data series. -/
def demoNoSeriesEnv : RunEnv :=
  { config := demoGasOnlyConfig, portalLoginOk := true,
    gasResp := some demoNoSeriesRaw, gasStore := [],
    elecOutcome := Except.error (), E := demoEnv, nowIso := "T",
    curYear := 2024, cutoff := 0 }

/-- Witness for C10 at a concrete response and run environment. -/
theorem C10_empty_series_is_success_witness :
    (fetch_once demoNoSeriesEnv).gasSuccess = true ∧
    (fetch_once demoNoSeriesEnv).exitCode = 0 ∧
    (fetch_once demoNoSeriesEnv).gasPoints = 0 :=
  (C10_empty_series_is_success demoNoSeriesRaw (Or.inl rfl)).2.2.2
    demoNoSeriesEnv rfl rfl rfl

/-- C4: Process exit contract: a run exits 0 exactly when at least one
configured utility's pipeline completed, and exits 1 when configuration is
unusable (no meter configured, or a missing credential makes `login`
throw), when authentication fails, or when every configured utility's
pipeline fails. -/
theorem C4_exit_contract (env : RunEnv) :
    ((fetch_once env).exitCode = 0 ∨ (fetch_once env).exitCode = 1) ∧
    ((fetch_once env).exitCode = 0 ↔
      ((fetch_once env).gasSuccess = true ∨ (fetch_once env).elecSuccess = true)) ∧
    ((fetch_once env).gasSuccess =
      (loginSucceeds env && truthy env.config.GAS_METERNUM && env.gasResp.isSome)) ∧
    ((fetch_once env).elecSuccess =
      (loginSucceeds env && truthy env.config.ELECTRIC_METERNUM &&
        env.elecOutcome.isOk)) ∧
    (loginSucceeds env = false → (fetch_once env).exitCode = 1) ∧
    (truthy env.config.GAS_METERNUM = false →
      truthy env.config.ELECTRIC_METERNUM = false →
      (fetch_once env).exitCode = 1) ∧
    ((truthy env.config.EMAIL = false ∨ truthy env.config.PASSWORD = false) →
      (fetch_once env).exitCode = 1) := by
  have hgs := fetch_once_gasSuccess env
  have hes := fetch_once_elecSuccess env
  have hex := fetch_once_exitCode env
  refine ⟨?_, ?_, hgs, hes, ?_, ?_, ?_⟩
  · rw [hex]
    by_cases h : ((fetch_once env).gasSuccess || (fetch_once env).elecSuccess) = true
    · rw [if_pos h]; exact Or.inl rfl
    · rw [if_neg h]; exact Or.inr rfl
  · rw [hex]
    by_cases h : ((fetch_once env).gasSuccess || (fetch_once env).elecSuccess) = true
    · rw [if_pos h]
      simp only [Bool.or_eq_true] at h
      exact ⟨fun _ => h, fun _ => rfl⟩
    · rw [if_neg h]
      simp only [Bool.or_eq_true] at h
      push_neg at h
      constructor
      · intro h1; exact absurd h1 (by simp)
      · intro h2; exact absurd h2 (by simpa using h)
  · intro hl
    rw [hex, hgs, hes, hl]
    rfl
  · intro hg he
    rw [hex, hgs, hes, hg, he]
    simp
  · intro hcred
    have hl : loginSucceeds env = false := by
      rw [loginSucceeds]
      rcases hcred with h | h <;> simp [h]
    rw [hex, hgs, hes, hl]
    rfl

/-- A configuration with credentials set and no meter configured. -/
def demoNoMeterConfig : EnvConfig :=
  { EMAIL := some "e", PASSWORD := some "p", ACCOUNTNUM := some "a",
    GAS_METERNUM := none, ELECTRIC_METERNUM := none }

/-- A run invoked with no meter configured. -/
def demoNoMeterEnv : RunEnv :=
  { config := demoNoMeterConfig, portalLoginOk := true, gasResp := none,
    gasStore := [], elecOutcome := Except.error (), E := demoEnv,
    nowIso := "T", curYear := 2024, cutoff := 0 }

/-- Witness for C4: a run with a decodable gas response exits 0; a run with
no meters configured exits 1. -/
theorem C4_exit_contract_witness :
    (fetch_once demoNoSeriesEnv).exitCode = 0 ∧
    (fetch_once demoNoMeterEnv).exitCode = 1 :=
  ⟨(C4_exit_contract demoNoSeriesEnv).2.1.mpr (Or.inl rfl),
    (C4_exit_contract demoNoMeterEnv).2.2.2.2.2.1 rfl rfl⟩

/-- C5 counterexample: with valid credentials but no meter configured,
`valid_config` is false, yet `fetch_once` still opens a browser session —
refuting "the failure is fatal before any pipeline work starts, and no
browser session is ever opened". -/
theorem C5_no_meter_counterexample :
    valid_config demoNoMeterConfig = false ∧
    (fetch_once demoNoMeterEnv).browserOpened = true := by
  constructor
  · rfl
  · exact fetch_once_browserOpened demoNoMeterEnv

/-- C5 amended: when both meter variables are unset (or empty),
`valid_config` returns false — so the constructor only skips history-file
initialization — but an invoked `fetch_once` still opens a browser
session, skips both utility pipelines, and exits with code 1. -/
theorem C5_no_meter_amended (env : RunEnv)
    (hg : truthy env.config.GAS_METERNUM = false)
    (he : truthy env.config.ELECTRIC_METERNUM = false) :
    valid_config env.config = false ∧
    constructorInitsHistoryFiles env.config = false ∧
    (fetch_once env).browserOpened = true ∧
    (fetch_once env).gasSuccess = false ∧
    (fetch_once env).elecSuccess = false ∧
    (fetch_once env).exitCode = 1 := by
  have hvc : valid_config env.config = false := by
    rw [valid_config]
    by_cases hr : (truthy env.config.EMAIL && truthy env.config.PASSWORD &&
        truthy env.config.ACCOUNTNUM) = true
    · simp only [hr]
      simp [hg, he]
    · simp only [Bool.not_eq_true] at hr
      simp [hr]
  refine ⟨hvc, hvc, fetch_once_browserOpened env, ?_, ?_, ?_⟩
  · rw [fetch_once_gasSuccess, hg]
    simp
  · rw [fetch_once_elecSuccess, he]
    simp
  · rw [fetch_once_exitCode, fetch_once_gasSuccess, fetch_once_elecSuccess, hg, he]
    simp

/-- Witness for the amended C5 at the concrete meter-less run. -/
theorem C5_no_meter_amended_witness :
    valid_config demoNoMeterConfig = false ∧
    constructorInitsHistoryFiles demoNoMeterConfig = false ∧
    (fetch_once demoNoMeterEnv).browserOpened = true ∧
    (fetch_once demoNoMeterEnv).gasSuccess = false ∧
    (fetch_once demoNoMeterEnv).elecSuccess = false ∧
    (fetch_once demoNoMeterEnv).exitCode = 1 :=
  C5_no_meter_amended demoNoMeterEnv rfl rfl

/-- A run whose only configured utility (gas) fails to fetch. -/
def demoGasFailEnv : RunEnv :=
  { config := demoGasOnlyConfig, portalLoginOk := true, gasResp := none,
    gasStore := [], elecOutcome := Except.error (), E := demoEnv,
    nowIso := "T", curYear := 2024, cutoff := 0 }

/-- C6 (refuted): when every configured utility fails, `process.exit(1)`
runs inside the `try` block and the `finally` never executes, so the
browser session that `init()` opened is never closed — teardown is not
guaranteed on that path. -/
theorem C6_browser_left_open_on_total_failure :
    (fetch_once demoGasFailEnv).browserOpened = true ∧
    (fetch_once demoGasFailEnv).browserClosed = false ∧
    (fetch_once demoGasFailEnv).exitCode = 1 := by
  refine ⟨fetch_once_browserOpened demoGasFailEnv, ?_, ?_⟩
  · rw [fetch_once_browserClosed, fetch_once_gasSuccess, fetch_once_elecSuccess]
    rfl
  · rw [fetch_once_exitCode, fetch_once_gasSuccess, fetch_once_elecSuccess]
    rfl

/-- A stored gas record of 2 CCF on 2024-01-01. -/
def demoJanRec1 : GasRec :=
  { date := "01/01/2024", date_label := "1/1", usage_ccf := 2,
    usage_therms := 2074 / 1000, average_ccf := none, unit := "CCF",
    timestamp := "T0", created_at := "T0" }

/-- A stored gas record of 4 CCF on 2024-01-02. -/
def demoJanRec2 : GasRec :=
  { date := "01/02/2024", date_label := "1/2", usage_ccf := 4,
    usage_therms := 4148 / 1000, average_ccf := none, unit := "CCF",
    timestamp := "T0", created_at := "T0" }

/-- C7: Monthly rollup correctness: `createMonthlySummary` for gas groups
by the `YYYY-MM` key of each record date, one entry per key, counting days
and summing `usage_ccf`/`usage_therms`, derives the daily averages from
the totals, rounds everything to 3 decimals, and sorts ascending by the
month key; in particular 2 CCF on 2024-01-01 and 4 CCF on 2024-01-02 give
the single rollup `2024-01` with `total_ccf = 6.000`, `days = 2`,
`average_daily_ccf = 3.000`. -/
theorem C7_monthly_rollup (E : DateEnv) (hd : List GasRec) :
    (createMonthlySummaryGas E hd).Pairwise (fun a b => a.month ≤ b.month) ∧
    ((createMonthlySummaryGas E hd).map GasMonth.month).Nodup ∧
    (∀ k : String, (∃ e ∈ createMonthlySummaryGas E hd, e.month = k) ↔
      ∃ rec ∈ hd, gasMonthKey E rec = k) ∧
    (∀ e ∈ createMonthlySummaryGas E hd,
      e.days = (hd.filter (fun rec => gasMonthKey E rec == e.month)).length ∧
      e.total_ccf = round3
        (((hd.filter (fun rec => gasMonthKey E rec == e.month)).map
          GasRec.usage_ccf).sum) ∧
      e.total_therms = round3
        (((hd.filter (fun rec => gasMonthKey E rec == e.month)).map
          GasRec.usage_therms).sum) ∧
      e.average_daily_ccf = round3
        ((((hd.filter (fun rec => gasMonthKey E rec == e.month)).map
          GasRec.usage_ccf).sum) /
          (((hd.filter (fun rec => gasMonthKey E rec == e.month)).length : Nat) : Rat)) ∧
      e.average_daily_therms = round3
        ((((hd.filter (fun rec => gasMonthKey E rec == e.month)).map
          GasRec.usage_therms).sum) /
          (((hd.filter (fun rec => gasMonthKey E rec == e.month)).length : Nat) : Rat))) ∧
    createMonthlySummaryGas demoEnv [demoJanRec1, demoJanRec2] =
      [{ month := "2024-01", total_ccf := 6, total_therms := 6222 / 1000,
         days := 2, average_daily_ccf := 3, average_daily_therms := 3111 / 1000 }] := by
  have hFnodup : ((hd.foldl (fun acc rec => gasAccum E rec acc) []).map
      GasMonth.month).Nodup := months_gasFold_nodup E hd [] (by simp)
  have hLmonths : (((hd.foldl (fun acc rec => gasAccum E rec acc) []).map
      gasFinalize).map GasMonth.month) =
      (hd.foldl (fun acc rec => gasAccum E rec acc) []).map GasMonth.month := by
    rw [List.map_map]
    exact List.map_congr_left (fun m _ => month_gasFinalize m)
  refine ⟨?_, ?_, ?_, ?_, ?_⟩
  · exact sortByKey_sorted _
  · have hperm : ((createMonthlySummaryGas E hd).map GasMonth.month).Perm
        ((((hd.foldl (fun acc rec => gasAccum E rec acc) []).map
          gasFinalize)).map GasMonth.month) := by
      rw [createMonthlySummaryGas]
      exact (sortByKey_perm _).map _
    rw [hLmonths] at hperm
    exact hperm.nodup_iff.mpr hFnodup
  · intro k
    constructor
    · rintro ⟨e, he, hek⟩
      rw [createMonthlySummaryGas] at he
      obtain ⟨m, hm, hme⟩ := List.mem_map.mp (mem_sortByKey.mp he)
      have hmk : m.month = k := by
        rw [← hek, ← hme, month_gasFinalize]
      have hkF : k ∈ (hd.foldl (fun acc rec => gasAccum E rec acc) []).map
          GasMonth.month := hmk ▸ List.mem_map_of_mem _ hm
      rcases (months_gasFold_mem E k hd []).mp hkF with h' | h'
      · simp at h'
      · exact h'
    · rintro ⟨rec, hrec, hkrec⟩
      have hkF : k ∈ (hd.foldl (fun acc rec => gasAccum E rec acc) []).map
          GasMonth.month :=
        (months_gasFold_mem E k hd []).mpr (Or.inr ⟨rec, hrec, hkrec⟩)
      obtain ⟨m, hm, hmk⟩ := List.mem_map.mp hkF
      refine ⟨gasFinalize m, ?_, by rw [month_gasFinalize]; exact hmk⟩
      rw [createMonthlySummaryGas]
      exact mem_sortByKey.mpr (List.mem_map_of_mem _ hm)
  · intro e he
    rw [createMonthlySummaryGas] at he
    obtain ⟨m, hm, hme⟩ := List.mem_map.mp (mem_sortByKey.mp he)
    have hfind := find?_of_mem_nodup_keys GasMonth.month hFnodup hm
    have hchar := gasFold_find? E m.month hd []
    rw [hfind, List.find?_nil] at hchar
    cases hrecs : hd.filter (fun rec => gasMonthKey E rec == m.month) with
    | nil =>
        rw [hrecs] at hchar
        exact absurd hchar (by simp [gasGroupValue])
    | cons r0 rs =>
        rw [hrecs] at hchar
        have hmval : m = addGasAll (gasZero m.month) (r0 :: rs) :=
          Option.some_inj.mp hchar
        have hemonth : e.month = m.month := by rw [← hme, month_gasFinalize]
        subst hme
        rw [month_gasFinalize] at hemonth ⊢
        rw [hemonth] at hrecs ⊢
        rw [hrecs]
        rw [hmval]
        refine ⟨?_, ?_, ?_, ?_, ?_⟩ <;>
          simp [gasFinalize, addGasAll, gasZero]
  · have hk1 : gasMonthKey demoEnv demoJanRec1 = "2024-01" := by decide
    have hk2 : gasMonthKey demoEnv demoJanRec2 = "2024-01" := by decide
    rw [createMonthlySummaryGas]
    rw [List.foldl_cons, List.foldl_cons, List.foldl_nil]
    rw [show gasAccum demoEnv demoJanRec1 [] =
      [addGasTo (gasZero (gasMonthKey demoEnv demoJanRec1)) demoJanRec1] from rfl]
    rw [hk1]
    rw [gasAccum, if_pos (by rw [month_addGasTo, hk2]; rfl)]
    rw [List.map_cons, List.map_nil]
    rw [sortByKey, sortByKey, insertByKey]
    norm_num [gasFinalize, addGasTo, gasZero, round3, demoJanRec1, demoJanRec2]

/-- Witness for C7: the 2024-01 rollup exists for the concrete two-day
January history. -/
theorem C7_monthly_rollup_witness :
    ∃ e ∈ createMonthlySummaryGas demoEnv [demoJanRec1, demoJanRec2],
      e.month = "2024-01" :=
  ((C7_monthly_rollup demoEnv [demoJanRec1, demoJanRec2]).2.2.1 "2024-01").mpr
    ⟨demoJanRec1, by simp, by decide⟩

end Duke
